import Mathlib

/-!
Verification development for the content-processing pipeline of the
`apple-hig-mcp` repository (`src/services/content/content-processor.service.ts`).

Strings are modelled as `List Char` (ASCII; JavaScript's Unicode-aware
`toLowerCase` and `\s` are modelled on the ASCII range, which covers every
string the theorems below evaluate).  Each JavaScript regular-expression
replacement of the source is embedded as an executable Lean function whose
scanning behaviour (leftmost match, greedy/lazy quantifiers, global
continuation after the matched span, the `i`/`m`/`s` flags) follows the
ECMAScript semantics of the concrete pattern.  JavaScript numbers are
modelled as rationals.
-/

set_option maxRecDepth 100000
set_option maxHeartbeats 1000000

/-- Shorthand: the character list of a string literal. -/
def str (s : String) : List Char := s.data

/-- Horizontal whitespace, the class `[ \t]`. -/
def isHT (c : Char) : Bool := c == ' ' || c == '\t'

/-- The JavaScript class `\s`, restricted to ASCII. -/
def isSpaceJS (c : Char) : Bool :=
  c == ' ' || c == '\t' || c == '\n' || c == '\r' || c.toNat == 11 || c.toNat == 12

/-- ASCII digit, the class `[0-9]`. -/
def isDigitA (c : Char) : Bool := 48 ≤ c.toNat && c.toNat ≤ 57

/-- ASCII uppercase letter, the class `[A-Z]`. -/
def isUpperA (c : Char) : Bool := 65 ≤ c.toNat && c.toNat ≤ 90

/-- ASCII lowercase letter, the class `[a-z]`. -/
def isLowerA (c : Char) : Bool := 97 ≤ c.toNat && c.toNat ≤ 122

/-- ASCII letter, the class `[A-Za-z]`. -/
def isLetterA (c : Char) : Bool := isUpperA c || isLowerA c

/-- The JavaScript word-character class `\w`, restricted to ASCII. -/
def isWordA (c : Char) : Bool := isLetterA c || isDigitA c || c == '_'

/-- ASCII lower-casing of one character (JavaScript `toLowerCase` on ASCII). -/
def lowerChar (c : Char) : Char :=
  if isUpperA c then Char.ofNat (c.toNat + 32) else c

/-- ASCII lower-casing of a string (JavaScript `toLowerCase`). -/
def lowerStr (s : List Char) : List Char := s.map lowerChar

/-- Does `pat` occur at the start of `s`, comparing case-insensitively? -/
def isPrefixCI : List Char → List Char → Bool
  | [], _ => true
  | _ :: _, [] => false
  | p :: ps, c :: cs => (lowerChar p == lowerChar c) && isPrefixCI ps cs

/-- Does `pat` occur at the start of `s` (case-sensitive)? -/
def isPrefixCS : List Char → List Char → Bool
  | [], _ => true
  | _ :: _, [] => false
  | p :: ps, c :: cs => (p == c) && isPrefixCS ps cs

/-- Split at the first case-insensitive occurrence of `pat`:
`splitFirstCI pat s = some (pre, post)` with `s = pre ++ occ ++ post`. -/
def splitFirstCI (pat : List Char) : List Char → Option (List Char × List Char)
  | [] => if pat.isEmpty then some ([], []) else none
  | c :: cs =>
    if isPrefixCI pat (c :: cs) then some ([], (c :: cs).drop pat.length)
    else
      match splitFirstCI pat cs with
      | some (pre, post) => some (c :: pre, post)
      | none => none

/-- Split at the first case-sensitive occurrence of `pat`. -/
def splitFirstCS (pat : List Char) : List Char → Option (List Char × List Char)
  | [] => if pat.isEmpty then some ([], []) else none
  | c :: cs =>
    if isPrefixCS pat (c :: cs) then some ([], (c :: cs).drop pat.length)
    else
      match splitFirstCS pat cs with
      | some (pre, post) => some (c :: pre, post)
      | none => none

/-- Case-insensitive substring test (JavaScript `includes` after `toLowerCase`
on the pattern side is handled by the callers). -/
def containsCI (pat s : List Char) : Bool := (splitFirstCI pat s).isSome

/-- Case-sensitive substring test (JavaScript `includes`). -/
def containsCS (pat s : List Char) : Bool := (splitFirstCS pat s).isSome

/-- One step of a global regex replacement: the leftmost match, given as
`(pre, replacement, post)` where the input is `pre ++ matched ++ post`. -/
def RepStep : Type := List Char → Option (List Char × List Char × List Char)

/-- Global replacement driver: repeatedly apply `step` (leftmost match,
continue after the matched span), with fuel for termination.  Every step
function below matches a non-empty span, so fuel `length + 1` is enough. -/
def gRep (step : RepStep) : Nat → List Char → List Char
  | 0, s => s
  | Nat.succ f, s =>
    match step s with
    | none => s
    | some (pre, repl, post) => pre ++ repl ++ gRep step f post

/-- Global replacement driver for patterns anchored with `^` under the `m`
flag: the step receives a flag telling whether the current position is a
line start, and returns additionally the flag for the continuation position
(whether the last matched character was a newline). -/
def gRepLS (step : Bool → List Char → Option (List Char × Bool × List Char × List Char)) :
    Nat → Bool → List Char → List Char
  | 0, _, s => s
  | Nat.succ f, atLS, s =>
    match step atLS s with
    | none => s
    | some (pre, nextLS, repl, post) => pre ++ repl ++ gRepLS step f nextLS post

/-- Split a string into its `\n`-separated lines (JavaScript `split('\n')`). -/
def splitNL : List Char → List (List Char)
  | [] => [[]]
  | c :: cs =>
    if c = '\n' then [] :: splitNL cs
    else
      match splitNL cs with
      | l :: ls => (c :: l) :: ls
      | [] => [[c]]

/-- Join lines with `\n` (JavaScript `join('\n')`). -/
def joinNL : List (List Char) → List Char
  | [] => []
  | [l] => l
  | l :: ls => l ++ '\n' :: joinNL ls

/-- JavaScript `String.prototype.trim`: strip `\s` from both ends. -/
def jsTrim (s : List Char) : List Char :=
  ((s.dropWhile isSpaceJS).reverse.dropWhile isSpaceJS).reverse

/-- Strip trailing horizontal whitespace from one line. -/
def dropTrailHT (l : List Char) : List Char :=
  (l.reverse.dropWhile isHT).reverse

/-! ## The HTML sanitizer (`cleanHtml`) -/

/-- Match attempt of `/<script\b[^<]*(?:(?!<\/script>)<[^<]*)*<\/script>/gi`
(and the analogous `style` pattern) at the current position: `<script`
followed by a non-word character; the match extends to the first subsequent
`</script>` (case-insensitive); with no closing tag there is no match. -/
def hereTagBlock (tagName s : List Char) : Option (List Char × List Char) :=
  if isPrefixCI ('<' :: tagName) s then
    let rest := s.drop ('<' :: tagName).length
    let boundaryOk := match rest with
      | [] => true
      | c :: _ => !isWordA c
    if boundaryOk then
      match splitFirstCI ('<' :: '/' :: tagName ++ ['>']) rest with
      | none => none
      | some (_, post) => some ([' '], post)
    else none
  else none

/-- Leftmost match of the `script`/`style` removal pattern. -/
def stepTagBlock (tagName : List Char) : List Char → Option (List Char × List Char × List Char)
  | [] => none
  | c :: cs =>
    match hereTagBlock tagName (c :: cs) with
    | some (repl, post) => some ([], repl, post)
    | none =>
      match stepTagBlock tagName cs with
      | none => none
      | some (pre, repl, post) => some (c :: pre, repl, post)

/-- Match attempt of `/<nav\b[^>]*>.*?<\/nav>/gi` (and `footer`, `header`) at
the current position: attributes may span newlines (`[^>]*`), but the element
content is matched by `.` without the `s` flag, so the closing tag must be
reached without crossing a newline. -/
def hereElemLine (tagName s : List Char) : Option (List Char × List Char) :=
  if isPrefixCI ('<' :: tagName) s then
    let rest := s.drop ('<' :: tagName).length
    let boundaryOk := match rest with
      | [] => true
      | c :: _ => !isWordA c
    if boundaryOk then
      let attrs := rest.takeWhile (fun c => c != '>')
      match rest.drop attrs.length with
      | '>' :: body =>
        let sameLine := body.takeWhile (fun c => c != '\n')
        match splitFirstCI ('<' :: '/' :: tagName ++ ['>']) sameLine with
        | none => none
        | some (between, _) =>
          some ([' '], body.drop (between.length + ('<' :: '/' :: tagName ++ ['>']).length))
      | _ => none
    else none
  else none

/-- Leftmost match of the `nav`/`footer`/`header` removal pattern. -/
def stepElemLine (tagName : List Char) : List Char → Option (List Char × List Char × List Char)
  | [] => none
  | c :: cs =>
    match hereElemLine tagName (c :: cs) with
    | some (repl, post) => some ([], repl, post)
    | none =>
      match stepElemLine tagName cs with
      | none => none
      | some (pre, repl, post) => some (c :: pre, repl, post)

/-- Match attempt of `/class="[^"]*breadcrumb[^"]*"/gi` (and the `navigation`
variant) at the current position: a `class="` attribute whose quoted value
contains the token. -/
def hereClassToken (token s : List Char) : Option (List Char × List Char) :=
  if isPrefixCI (str "class=\"") s then
    let rest := s.drop 7
    let val := rest.takeWhile (fun c => c != '"')
    match rest.drop val.length with
    | '"' :: post => if containsCI token val then some ([], post) else none
    | _ => none
  else none

/-- Leftmost match of the `class` token removal pattern. -/
def stepClassToken (token : List Char) : List Char → Option (List Char × List Char × List Char)
  | [] => none
  | c :: cs =>
    match hereClassToken token (c :: cs) with
    | some (repl, post) => some ([], repl, post)
    | none =>
      match stepClassToken token cs with
      | none => none
      | some (pre, repl, post) => some (c :: pre, repl, post)

/-- Step of `/\s+/g`: the leftmost run of whitespace. -/
def stepWsRun (s : List Char) : Option (List Char × List Char × List Char) :=
  match s with
  | [] => none
  | c :: cs =>
    if isSpaceJS c then some ([], [' '], cs.dropWhile isSpaceJS)
    else
      match stepWsRun cs with
      | none => none
      | some (pre, repl, post) => some (c :: pre, repl, post)

/-- The HTML sanitizer `cleanHtml` of the source, pass for pass. -/
def cleanHtml (html : List Char) : List Char :=
  let c1 := gRep (stepTagBlock (str "script")) (html.length + 1) html
  let c2 := gRep (stepTagBlock (str "style")) (c1.length + 1) c1
  let c3 := gRep (stepElemLine (str "nav")) (c2.length + 1) c2
  let c4 := gRep (stepElemLine (str "footer")) (c3.length + 1) c3
  let c5 := gRep (stepElemLine (str "header")) (c4.length + 1) c4
  let c6 := gRep (stepClassToken (str "breadcrumb")) (c5.length + 1) c5
  let c7 := gRep (stepClassToken (str "navigation")) (c6.length + 1) c6
  gRep stepWsRun (c7.length + 1) c7


/-! ## The markdown normalizer (`cleanMarkdown`) -/

/-- The phrase opening the JavaScript-fallback banner. -/
def bannerPhraseA : List Char := str "this page requires javascript"

/-- The phrase closing the JavaScript-fallback banner. -/
def bannerPhraseB : List Char := str "refresh the page to view its content"

/-- Single anchored replacement of
`/^.*?this page requires javascript.*?refresh the page to view its content\.?\s*/is`:
remove everything up to the end of the first banner (lazy quantifiers pick the
first occurrence of each phrase), plus an optional period and whitespace. -/
def hereJsBannerLead (s : List Char) : Option (List Char) :=
  match splitFirstCI bannerPhraseA s with
  | none => none
  | some (_, rest) =>
    match splitFirstCI bannerPhraseB rest with
    | none => none
    | some (_, rest2) =>
      let rest3 := match rest2 with
        | '.' :: t => t
        | t => t
      some (rest3.dropWhile isSpaceJS)

/-- Apply the anchored banner removal when its pattern matches. -/
def removeJsBannerLead (s : List Char) : List Char :=
  match hereJsBannerLead s with
  | none => s
  | some r => r

/-- Single anchored match of
`/^#\s*this page requires javascript\.?\s*please turn on javascript.*?\s*/is`
(the trailing lazy `.*?` matches the empty string, the final `\s*` is greedy). -/
def hereJsBannerHead (s : List Char) : Option (List Char) :=
  match s with
  | '#' :: rest =>
    let r1 := rest.dropWhile isSpaceJS
    if isPrefixCI bannerPhraseA r1 then
      let r2 := r1.drop bannerPhraseA.length
      let r3 := match r2 with
        | '.' :: t => t
        | t => t
      let r4 := r3.dropWhile isSpaceJS
      if isPrefixCI (str "please turn on javascript") r4 then
        some ((r4.drop (str "please turn on javascript").length).dropWhile isSpaceJS)
      else none
    else none
  | _ => none

/-- Apply the anchored standalone-warning removal when its pattern matches. -/
def removeJsBannerHead (s : List Char) : List Char :=
  match hereJsBannerHead s with
  | none => s
  | some r => r

/-- Match attempt of `/^#\s*this page requires javascript\.?\s*/gim` at a line
start; returns the line-start flag for the continuation position and the rest. -/
def hereJsHeaderLine (s : List Char) : Option (Bool × List Char × List Char) :=
  match s with
  | '#' :: rest =>
    let r1 := rest.dropWhile isSpaceJS
    if isPrefixCI bannerPhraseA r1 then
      let r2 := r1.drop bannerPhraseA.length
      let r3 := match r2 with
        | '.' :: t => t
        | t => t
      let ws := r3.takeWhile isSpaceJS
      some (ws.getLast? == some '\n', [], r3.drop ws.length)
    else none
  | _ => none

/-- Generic leftmost-match scanner for an unanchored pattern given its
single-position match attempt `here` (returning replacement and rest). -/
def scanStep (here : List Char → Option (List Char × List Char)) :
    List Char → Option (List Char × List Char × List Char)
  | [] => none
  | c :: cs =>
    match here (c :: cs) with
    | some (r, p) => some ([], r, p)
    | none =>
      match scanStep here cs with
      | none => none
      | some (pre, r, p) => some (c :: pre, r, p)

/-- Generic leftmost-match scanner for a `^`-anchored pattern under the `m`
flag; `here` is attempted only at line starts and additionally reports the
line-start flag for the continuation position. -/
def scanStepLS (here : List Char → Option (Bool × List Char × List Char)) :
    Bool → List Char → Option (List Char × Bool × List Char × List Char)
  | _, [] => none
  | atLS, c :: cs =>
    match (if atLS then here (c :: cs) else none) with
    | some (nl, repl, post) => some ([], nl, repl, post)
    | none =>
      match scanStepLS here (c == '\n') cs with
      | none => none
      | some (pre, nl, repl, post) => some (c :: pre, nl, repl, post)

/-- Match attempt of `/please turn on javascript.*?content\.\s*/gim`: the lazy
dot does not cross newlines, the trailing `\s*` does. -/
def herePleaseTurnOn (s : List Char) : Option (List Char × List Char) :=
  if isPrefixCI (str "please turn on javascript") s then
    let rest := s.drop (str "please turn on javascript").length
    let sameLine := rest.takeWhile (fun c => c != '\n')
    match splitFirstCI (str "content.") sameLine with
    | none => none
    | some (between, _) =>
      let after := rest.drop (between.length + (str "content.").length)
      some ([], after.dropWhile isSpaceJS)
  else none

/-- Match attempt of `/skip navigation\s*/gi`. -/
def hereSkipNav (s : List Char) : Option (List Char × List Char) :=
  if isPrefixCI (str "skip navigation") s then
    some ([], (s.drop (str "skip navigation").length).dropWhile isSpaceJS)
  else none

/-- Match attempt of
`/platform considerations\s*no additional considerations for.*?\./gi`. -/
def herePlatConsider (s : List Char) : Option (List Char × List Char) :=
  if isPrefixCI (str "platform considerations") s then
    let r1 := (s.drop (str "platform considerations").length).dropWhile isSpaceJS
    if isPrefixCI (str "no additional considerations for") r1 then
      let r2 := r1.drop (str "no additional considerations for").length
      let sameLine := r2.takeWhile (fun c => c != '\n')
      match splitFirstCS ['.'] sameLine with
      | none => none
      | some (between, _) => some ([], r2.drop (between.length + 1))
    else none
  else none

/-- Match attempt of `/current page is \w+\s*/gi`. -/
def hereCurrentPage (s : List Char) : Option (List Char × List Char) :=
  if isPrefixCI (str "current page is ") s then
    let rest := s.drop (str "current page is ").length
    let w := rest.takeWhile isWordA
    if w.isEmpty then none
    else some ([], (rest.drop w.length).dropWhile isSpaceJS)
  else none

/-- Replacement of `/supported platforms.*$/gi`: without the `m` flag, `$`
matches only the end of the string and `.` does not cross newlines, so only an
occurrence on the final line matches; it is removed through the end. -/
def removeSupportedPlatforms (s : List Char) : List Char :=
  let lastLine := (s.reverse.takeWhile (fun c => c != '\n')).reverse
  match splitFirstCI (str "supported platforms") lastLine with
  | none => s
  | some (pre, _) => s.take (s.length - lastLine.length) ++ pre

/-- The `removeAppleSPAMetadata` helper of the source. -/
def removeAppleSPAMetadata (content : List Char) : List Char :=
  let a := gRep (scanStep herePlatConsider) (content.length + 1) content
  let b := gRep (scanStep hereCurrentPage) (a.length + 1) a
  removeSupportedPlatforms b

/-- The captured title of `^#+\s*(.+)$` on one line, lower-cased and trimmed
(`titleMatch[1].toLowerCase().trim()`), or `none` when the line is no heading.
On an all-hash line of length at least two, backtracking of `#+` makes the
capture the final hash. -/
def titleOf (line : List Char) : Option (List Char) :=
  let hs := line.takeWhile (fun c => c == '#')
  if hs.isEmpty then none
  else
    let rest := line.drop hs.length
    if rest.isEmpty then
      if 2 ≤ hs.length then some ['#'] else none
    else some (lowerStr (jsTrim rest))

/-- Line filter of `removeRepeatedTitles`, threading the title-count map:
the count is updated before the decision, which uses the previous count. -/
def removeRepeatedTitlesGo : List (List Char) → List (List Char × Nat) → List (List Char)
  | [], _ => []
  | l :: ls, counts =>
    match titleOf l with
    | none => l :: removeRepeatedTitlesGo ls counts
    | some t =>
      let cnt := ((counts.find? (fun p => p.1 == t)).map Prod.snd).getD 0
      let counts' := (t, cnt + 1) :: counts.filter (fun p => p.1 != t)
      if cnt == 0 || 20 < l.length then l :: removeRepeatedTitlesGo ls counts'
      else removeRepeatedTitlesGo ls counts'

/-- The `removeRepeatedTitles` helper of the source. -/
def removeRepeatedTitles (content : List Char) : List Char :=
  joinNL (removeRepeatedTitlesGo (splitNL content) [])

/-- Replacement of `/\n{3,}/g` with two newlines: runs of three or more
newlines collapse to exactly two. -/
def collapse3NL : List Char → List Char
  | [] => []
  | c :: cs =>
    let r := collapse3NL cs
    if c = '\n' then
      if r.take 2 = ['\n', '\n'] then r else '\n' :: r
    else c :: r

/-- Replacement of `/[ \t]+$/gm` with the empty string: strip trailing
horizontal whitespace from every line. -/
def stripTrailWS (s : List Char) : List Char :=
  joinNL ((splitNL s).map dropTrailHT)

/-- Replacement of `/[ \t]+/g` with a single space: collapse every run of
horizontal whitespace to one space. -/
def collapseHT : List Char → List Char
  | [] => []
  | c :: cs =>
    let r := collapseHT cs
    if isHT c then
      if r.head? = some ' ' then r else ' ' :: r
    else c :: r

/-- Match attempt of `/([^\n])(#+\s)/g` (blank line before headings). -/
def hereHdrBefore (s : List Char) : Option (List Char × List Char) :=
  match s with
  | c :: rest =>
    if c != '\n' then
      let hs := rest.takeWhile (fun d => d == '#')
      if hs.isEmpty then none
      else
        match rest.drop hs.length with
        | w :: post =>
          if isSpaceJS w then some (c :: '\n' :: '\n' :: hs ++ [w], post) else none
        | [] => none
    else none
  | [] => none

/-- Match attempt of `/(#+\s[^\n]+)([^\n])/g` (intended as blank line after
headings): the greedy `[^\n]+` backtracks by one character, so the match spans
the hashes, one whitespace character and the whole remainder of the line, and
the replacement inserts a blank line before the final character of the line. -/
def hereHdrAfter (s : List Char) : Option (List Char × List Char) :=
  let hs := s.takeWhile (fun d => d == '#')
  if hs.isEmpty then none
  else
    match s.drop hs.length with
    | w :: rest =>
      if isSpaceJS w then
        let run := rest.takeWhile (fun c => c != '\n')
        if 2 ≤ run.length then
          some (hs ++ w :: run.take (run.length - 1) ++ '\n' :: '\n' :: run.drop (run.length - 1),
            rest.drop run.length)
        else none
      else none
    | [] => none

/-- Match attempt of `/\[([^\]]*)\]\(\)/g` (malformed links): `[text]()`
becomes `text`. -/
def hereEmptyLink (s : List Char) : Option (List Char × List Char) :=
  match s with
  | '[' :: rest =>
    let inner := rest.takeWhile (fun c => c != ']')
    match rest.drop inner.length with
    | ']' :: '(' :: ')' :: post => some (inner, post)
    | _ => none
  | _ => none

/-- Match attempt of `/^#+\s*$/gm` at a line start (empty headings): `\s*` may
cross newlines, and `$` holds before a newline or at the end, so the greedy
`\s*` consumes whitespace up to the last newline inside the run (or all of it
at the end of the string). -/
def hereEmptyHeader (s : List Char) : Option (Bool × List Char × List Char) :=
  let hs := s.takeWhile (fun c => c == '#')
  if hs.isEmpty then none
  else
    let rest := s.drop hs.length
    let ws := rest.takeWhile isSpaceJS
    let rest2 := rest.drop ws.length
    if rest2.isEmpty then
      some ((hs ++ ws).getLast? == some '\n', [], [])
    else
      let tailNoNL := ws.reverse.takeWhile (fun c => c != '\n')
      if tailNoNL.length == ws.length then none
      else
        let j := ws.length - 1 - tailNoNL.length
        some ((hs ++ ws.take j).getLast? == some '\n', [], ws.drop j ++ rest2)

/-- Match attempt of `/^\s*[*+]\s/gm` at a line start (bullet markers): the
match becomes `- `. -/
def hereBullet (s : List Char) : Option (Bool × List Char × List Char) :=
  let ws := s.takeWhile isSpaceJS
  match s.drop ws.length with
  | m :: w :: post =>
    if (m == '*' || m == '+') && isSpaceJS w then
      some (w == '\n', str "- ", post)
    else none
  | _ => none

/-- The fixed vocabulary of known multi-word domain phrases of
`fixWordConcatenation` (`higTerms` in the source). -/
def higTerms : List (List Char) :=
  [str "Best practices", str "Guidelines", str "When to use", str "How to use",
   str "iOS", str "macOS", str "watchOS", str "tvOS", str "visionOS",
   str "Tab bar", str "Navigation bar", str "Button", str "Picker", str "Slider",
   str "Action sheet", str "Alert", str "Popover", str "Sheet",
   str "Accessibility", str "VoiceOver", str "Dynamic Type",
   str "SF Symbols", str "App Store"]

/-- `term.replace(/\s+/g, '')` of the source: the term with whitespace removed. -/
def termNoSpaces (t : List Char) : List Char := t.filter (fun c => !isSpaceJS c)

/-- Match attempt of `/([a-z])([A-Z])/g`: insert a space at a lowercase/uppercase
boundary. -/
def hereLcUc (s : List Char) : Option (List Char × List Char) :=
  match s with
  | c1 :: c2 :: post =>
    if isLowerA c1 && isUpperA c2 then some ([c1, ' ', c2], post) else none
  | _ => none

/-- Largest split point `p` with `2 ≤ p ≤ bound` such that `noSp` occurs
case-insensitively at offset `p` of `run` (the greedy `[a-z]{2,}` prefix). -/
def findMaxSplit (noSp run : List Char) : Nat → Option Nat
  | 0 => none
  | 1 => none
  | Nat.succ p =>
    if isPrefixCI noSp (run.drop (Nat.succ p)) then some (Nat.succ p)
    else findMaxSplit noSp run p

/-- Match attempt of ``new RegExp(`([a-z]{2,})${termNoSpaces}`, 'gi')`` with its
callback: under the `i` flag `[a-z]` matches letters of either case, so the
match is a letter prefix of length at least two directly followed by the
spaceless term; prefixes shorter than three characters are left unchanged,
longer ones get a space and the canonical term spelling. -/
def hereTerm1 (noSp term s : List Char) : Option (List Char × List Char) :=
  let run := s.takeWhile isLetterA
  match findMaxSplit noSp run run.length with
  | none => none
  | some p =>
    let matchedLen := p + noSp.length
    let post := s.drop matchedLen
    if p < 3 then some (s.take matchedLen, post)
    else some (run.take p ++ ' ' :: term, post)

/-- Match attempt of ``new RegExp(`${termNoSpaces}([A-Z][a-z]{2,})`, 'gi')``
with its callback: under the `i` flag the suffix classes match letters of
either case, so the match is the spaceless term directly followed by at least
three letters; the replacement restores the canonical term plus a space. -/
def hereTerm2 (noSp term s : List Char) : Option (List Char × List Char) :=
  if isPrefixCI noSp s then
    let after := s.drop noSp.length
    let letters := after.takeWhile isLetterA
    if 3 ≤ letters.length then
      some (term ++ ' ' :: letters, after.drop letters.length)
    else none
  else none

/-- Match attempt of `/([a-z])\.([A-Z])/g` and its `!`/`?` variants: insert a
space after sentence punctuation directly followed by an uppercase letter. -/
def herePunct (p : Char) (s : List Char) : Option (List Char × List Char) :=
  match s with
  | c1 :: q :: c2 :: post =>
    if isLowerA c1 && q == p && isUpperA c2 then some ([c1, p, ' ', c2], post) else none
  | _ => none

/-- Match attempt of `/([0-9])([A-Za-z])/g`. -/
def hereDigitLetter (s : List Char) : Option (List Char × List Char) :=
  match s with
  | c1 :: c2 :: post =>
    if isDigitA c1 && isLetterA c2 then some ([c1, ' ', c2], post) else none
  | _ => none

/-- Match attempt of `/([A-Za-z])([0-9])/g`. -/
def hereLetterDigit (s : List Char) : Option (List Char × List Char) :=
  match s with
  | c1 :: c2 :: post =>
    if isLetterA c1 && isDigitA c2 then some ([c1, ' ', c2], post) else none
  | _ => none

/-- The `fixWordConcatenation` helper of the source, pass for pass in source
order: the lowercase/uppercase repair, the two per-term repairs for each
vocabulary term, the three punctuation repairs, the two digit repairs. -/
def fixWordConcatenation (content : List Char) : List Char :=
  let s1 := gRep (scanStep hereLcUc) (content.length + 1) content
  let s2 := higTerms.foldl
    (fun acc t =>
      let a1 := gRep (scanStep (hereTerm1 (termNoSpaces t) t)) (acc.length + 1) acc
      gRep (scanStep (hereTerm2 (termNoSpaces t) t)) (a1.length + 1) a1)
    s1
  let s3 := gRep (scanStep (herePunct '.')) (s2.length + 1) s2
  let s4 := gRep (scanStep (herePunct '!')) (s3.length + 1) s3
  let s5 := gRep (scanStep (herePunct '?')) (s4.length + 1) s4
  let s6 := gRep (scanStep hereDigitLetter) (s5.length + 1) s5
  gRep (scanStep hereLetterDigit) (s6.length + 1) s6

/-- Match attempt of `/resources?\s*related.*?change log.*$/gis`: an optional
`s`, whitespace, `related`, then (dot-all, to the string end) some later
`change log`; the whole suffix is removed. -/
def hereResRel (s : List Char) : Option (List Char × List Char) :=
  if isPrefixCI (str "resource") s then
    let after := s.drop (str "resource").length
    let withS := match after with
      | c :: t => if lowerChar c == 's' then some t else none
      | [] => none
    let tryTail (t : List Char) : Bool :=
      let r := t.dropWhile isSpaceJS
      isPrefixCI (str "related") r &&
        containsCI (str "change log") (r.drop (str "related").length)
    match withS with
    | some t => if tryTail t then some ([], []) else if tryTail after then some ([], []) else none
    | none => if tryTail after then some ([], []) else none
  else none

/-- Match attempt of `/change log\s*date\s*changes.*$/gis`. -/
def hereChangeLogDate (s : List Char) : Option (List Char × List Char) :=
  if isPrefixCI (str "change log") s then
    let r1 := (s.drop (str "change log").length).dropWhile isSpaceJS
    if isPrefixCI (str "date") r1 then
      let r2 := (r1.drop (str "date").length).dropWhile isSpaceJS
      if isPrefixCI (str "changes") r2 then some ([], []) else none
    else none
  else none

/-- Match attempt of `/videos\s*discoverable design.*$/gis`. -/
def hereVideos (s : List Char) : Option (List Char × List Char) :=
  if isPrefixCI (str "videos") s then
    let r1 := (s.drop (str "videos").length).dropWhile isSpaceJS
    if isPrefixCI (str "discoverable design") r1 then some ([], []) else none
  else none

/-- Match attempt of `/platform considerations.*?resources.*$/gis`. -/
def herePlatRes (s : List Char) : Option (List Char × List Char) :=
  if isPrefixCI (str "platform considerations") s then
    if containsCI (str "resources") (s.drop (str "platform considerations").length)
    then some ([], []) else none
  else none

/-- The `removeTrailingMetadata` helper of the source: the four trailing
patterns in order, then `trim`. -/
def removeTrailingMetadata (content : List Char) : List Char :=
  let a := gRep (scanStep hereResRel) (content.length + 1) content
  let b := gRep (scanStep hereChangeLogDate) (a.length + 1) a
  let c := gRep (scanStep hereVideos) (b.length + 1) b
  let d := gRep (scanStep herePlatRes) (c.length + 1) c
  jsTrim d

/-- The markdown normalizer `cleanMarkdown` of the source, pass for pass in
source order. -/
def cleanMarkdown (markdown : List Char) : List Char :=
  let c1 := removeJsBannerLead markdown
  let c2 := removeJsBannerHead c1
  let c3 := gRepLS (scanStepLS hereJsHeaderLine) (c2.length + 1) true c2
  let c4 := gRep (scanStep herePleaseTurnOn) (c3.length + 1) c3
  let c5 := gRep (scanStep hereSkipNav) (c4.length + 1) c4
  let c6 := removeAppleSPAMetadata c5
  let c7 := removeRepeatedTitles c6
  let c8 := collapse3NL c7
  let c9 := stripTrailWS c8
  let c10 := collapseHT c9
  let c11 := gRep (scanStep hereHdrBefore) (c10.length + 1) c10
  let c12 := gRep (scanStep hereHdrAfter) (c11.length + 1) c11
  let c13 := gRep (scanStep hereEmptyLink) (c12.length + 1) c12
  let c14 := gRepLS (scanStepLS hereEmptyHeader) (c13.length + 1) true c13
  let c15 := gRepLS (scanStepLS hereBullet) (c14.length + 1) true c14
  let c16 := fixWordConcatenation c15
  let c17 := removeTrailingMetadata c16
  jsTrim c17

example : cleanMarkdown (str "a\n \n \nb") = str "a\n\n\nb" := by decide
example : cleanMarkdown (str "a\n\n\nb") = str "a\n\nb" := by decide
example : cleanMarkdown (str "# ab") = str "# a\n\nb" := by decide
example : cleanMarkdown (str "  * item") = str "- item" := by decide
example : cleanMarkdown (str "[text]() x") = str "text x" := by decide
example : cleanMarkdown (str "helloWorld") = str "hello World" := by decide
example : cleanMarkdown (str "xyzbutton") = str "xyz Button" := by decide

/-! ## Quality metrics, keyword extraction, front matter, pipeline -/

/-- The fixed domain vocabulary `appleDesignTerms` of the source. -/
def appleDesignTerms : List (List Char) :=
  [str "accessibility", str "animation", str "branding", str "buttons", str "color",
   str "controls", str "design", str "feedback", str "gestures", str "haptics",
   str "icons", str "images", str "input", str "interface", str "layout",
   str "materials", str "motion", str "navigation", str "presentation",
   str "selection", str "status", str "system", str "typography", str "visual",
   str "widgets", str "human interface guidelines", str "user experience",
   str "user interface", str "touch target", str "dynamic type", str "voiceover",
   str "dark mode", str "light mode"]

/-- The fixed list `fallbackIndicators` of the source. -/
def fallbackIndicators : List (List Char) :=
  [str "this page requires javascript", str "please turn on javascript",
   str "javascript is required", str "single page application",
   str "content not available", str "loading...", str "page not found",
   str "skip navigation", str "refresh the page to view"]

/-- The fixed list `appleSPAIndicators` of the source. -/
def appleSPAIndicators : List (List Char) :=
  [str "skip navigation", str "current page is", str "supported platforms",
   str "change log", str "platform considerations",
   str "additional considerations for", str "no additional considerations for"]

/-- Section metadata (`HIGSection` of `types.ts`), with the fields the
processor uses; `platform` and `category` are carried as strings. -/
structure HIGSection where
  id : List Char
  title : List Char
  url : List Char
  platform : List Char
  category : List Char

/-- The `ContentQualityMetrics` record of the source; JavaScript numbers are
rationals, `codeExamplesCount` in particular (it is a count divided by two). -/
structure ContentQualityMetrics where
  score : ℚ
  length : ℕ
  structureScore : ℚ
  appleTermsScore : ℚ
  codeExamplesCount : ℚ
  imageReferencesCount : ℕ
  headingCount : ℕ
  isFallbackContent : Bool
  extractionMethod : List Char
  confidence : ℚ

/-- Count of matches of an unanchored pattern given its single-position match
attempt (returning the rest after the match), with fuel. -/
def countMatches (here : List Char → Option (List Char)) : Nat → List Char → Nat
  | 0, _ => 0
  | Nat.succ f, s =>
    match s with
    | [] => 0
    | c :: cs =>
      match here (c :: cs) with
      | some post => 1 + countMatches here f post
      | none => countMatches here f cs

/-- Match attempt of the code-fence pattern `/```/g`. -/
def hereFence (s : List Char) : Option (List Char) :=
  if isPrefixCS (str "```") s then some (s.drop 3) else none

/-- Match attempt of the image-reference pattern `/!\[.*?\]/g`: `!`, `[`, a
lazy non-newline span, `]`. -/
def hereImageRef (s : List Char) : Option (List Char) :=
  match s with
  | '!' :: '[' :: rest =>
    let seg := rest.takeWhile (fun c => c != ']')
    if seg.any (fun c => c == '\n') then none
    else
      match rest.drop seg.length with
      | ']' :: post => some post
      | _ => none
  | _ => none

/-- Count of `/^#+/gm` matches: the number of lines starting with a hash. -/
def headingCountOf (content : List Char) : Nat :=
  (splitNL content).countP (fun l => l.head? == some '#')

/-- The `detectFallbackContent` helper of the source.  The JavaScript
`originalContent?.toLowerCase() || contentLower` falls back to the content both
for a missing and for an empty original (the empty string is falsy). -/
def detectFallbackContent (content : List Char) (originalContent : Option (List Char)) : Bool :=
  let contentLower := lowerStr content
  let originalLower := match originalContent with
    | none => contentLower
    | some o => if o.isEmpty then contentLower else lowerStr o
  let hasSubstantialRealContent := decide (500 < content.length) &&
    (containsCS (str "best practices") contentLower ||
     containsCS (str "guideline") contentLower ||
     containsCS (str "accessibility") contentLower ||
     containsCS (str "consider") contentLower ||
     containsCS (str "ensure") contentLower ||
     containsCS (str "avoid") contentLower)
  if hasSubstantialRealContent then false
  else
    let hasFallbackIndicators := fallbackIndicators.any
      (fun ind => containsCS ind contentLower || containsCS ind originalLower)
    let isTooShort := decide (content.length < 200)
    let hasOnlySPAIndicators := appleSPAIndicators.any
      (fun ind => containsCS ind contentLower || containsCS ind originalLower)
    let hasJavaScriptIssues :=
      (containsCS (str "javascript") contentLower || containsCS (str "javascript") originalLower) &&
      (containsCS (str "required") contentLower || containsCS (str "turn on") contentLower ||
       containsCS (str "required") originalLower || containsCS (str "turn on") originalLower)
    hasFallbackIndicators || (hasJavaScriptIssues && !hasSubstantialRealContent) ||
      (isTooShort && hasOnlySPAIndicators)

/-- The guideline-signal test of `calculateQualityMetrics` (`hasGuidelines`). -/
def hasGuidelinesOf (content : List Char) : Bool :=
  let contentLower := lowerStr content
  containsCS (str "best practices") contentLower ||
  containsCS (str "guideline") contentLower ||
  containsCS (str "consider") contentLower ||
  containsCS (str "avoid") contentLower ||
  containsCS (str "should") contentLower ||
  containsCS (str "when") contentLower

/-- The SPA-artifact test of `calculateQualityMetrics` (`hasAppleSPAIssues`). -/
def hasAppleSPAIssuesOf (content : List Char) : Bool :=
  appleSPAIndicators.any (fun ind => containsCS ind (lowerStr content))

/-- The `codeExamplesCount` local of `calculateQualityMetrics`: the count of
triple-backtick fences divided by two. -/
def codeExamplesCountOf (content : List Char) : ℚ :=
  (countMatches hereFence (content.length + 1) content : ℚ) / 2

/-- The `structureScore` local of `calculateQualityMetrics`. -/
def structureScoreOf (content : List Char) : ℚ :=
  min 1 ((headingCountOf content : ℚ) * (1/10) + codeExamplesCountOf content * (1/5))

/-- The `appleTermsFound` local of `calculateQualityMetrics`. -/
def appleTermsFoundOf (content : List Char) : ℕ :=
  (appleDesignTerms.filter (fun t => containsCS t (lowerStr content))).length

/-- The `appleTermsScore` local of `calculateQualityMetrics`. -/
def appleTermsScoreOf (content : List Char) : ℚ :=
  min 1 ((appleTermsFoundOf content : ℚ) / 10)

/-- The `guidelineScore` local of `calculateQualityMetrics`. -/
def guidelineScoreOf (content : List Char) : ℚ :=
  if hasGuidelinesOf content then 2/5 else 0

/-- The `structureBonus` local of `calculateQualityMetrics`. -/
def structureBonusOf (content : List Char) : ℚ :=
  if 2 ≤ headingCountOf content then 1/5 else 0

/-- The `lengthScore` local of `calculateQualityMetrics`. -/
def lengthScoreOf (content : List Char) : ℚ :=
  min 1 ((content.length : ℚ) / 800)

/-- The weighted sum of the normal-quality branch of `calculateQualityMetrics`. -/
def normalScoreOf (content : List Char) : ℚ :=
  lengthScoreOf content * (1/5) + structureScoreOf content * (3/20) +
    appleTermsScoreOf content * (3/20) + guidelineScoreOf content * (7/20) +
    structureBonusOf content * (3/20)

/-- The `score` local of `calculateQualityMetrics` before the final clamp. -/
def rawScoreOf (content : List Char) (originalContent : Option (List Char)) : ℚ :=
  if detectFallbackContent content originalContent then 1/10
  else if hasAppleSPAIssuesOf content && !(decide (400 < content.length)) then 3/10
  else normalScoreOf content

/-- The `calculateQualityMetrics` function of the source, with all weights as
exact rationals and its locals split into the named helper definitions above. -/
def calculateQualityMetrics (content : List Char) (originalContent : Option (List Char)) :
    ContentQualityMetrics :=
  { score := min 1 (rawScoreOf content originalContent)
    length := content.length
    structureScore := structureScoreOf content
    appleTermsScore := appleTermsScoreOf content
    codeExamplesCount := codeExamplesCountOf content
    imageReferencesCount := countMatches hereImageRef (content.length + 1) content
    headingCount := headingCountOf content
    isFallbackContent := detectFallbackContent content originalContent
    extractionMethod := str "turndown-enhanced"
    confidence :=
      if detectFallbackContent content originalContent then 1/10
      else min 1 (rawScoreOf content originalContent + 1/10) }

/-- Insertion into a JavaScript `Set` modelled as an insertion-ordered
duplicate-free list. -/
def setAdd (l : List (List Char)) (x : List Char) : List (List Char) :=
  if x ∈ l then l else l ++ [x]

/-- Maximal runs of word characters of a string. -/
def wordRuns : List Char → List (List Char)
  | [] => []
  | c :: cs =>
    let r := wordRuns cs
    if isWordA c then
      match cs with
      | d :: _ =>
        if isWordA d then
          match r with
          | run :: rs => (c :: run) :: rs
          | [] => [[c]]
        else [c] :: r
      | [] => [[c]]
    else r

/-- The matches of `/\b[a-z]{3,}\b/g` on the lower-cased content: maximal
word-character runs that consist solely of lowercase letters and have length
at least three (a word boundary never occurs inside a word-character run). -/
def matchWordTokens (content : List Char) : List (List Char) :=
  (wordRuns (lowerStr content)).filter
    (fun r => decide (3 ≤ r.length) && r.all isLowerA)

/-- The `extractKeywords` function of the source: a set seeded with the
lower-cased title, platform and category, extended by content tokens that
equal a domain-vocabulary entry, truncated to twenty entries. -/
def extractKeywords (content : List Char) (sec : HIGSection) : List (List Char) :=
  let seeds := setAdd (setAdd (setAdd [] (lowerStr sec.title)) (lowerStr sec.platform))
    (lowerStr sec.category)
  let all := (matchWordTokens content).foldl
    (fun acc w => if w ∈ appleDesignTerms then setAdd acc w else acc) seeds
  all.take 20

/-- Match attempt of `/see also[:\s]+(.*?)(?:\n|$)/i`: the greedy `[:\s]+` run,
then the capture up to the next newline or the end. -/
def hereSeeAlso (s : List Char) : Option (List Char) :=
  if isPrefixCI (str "see also") s then
    let rest := s.drop (str "see also").length
    let ws := rest.takeWhile (fun c => c == ':' || isSpaceJS c)
    if ws.isEmpty then none
    else some ((rest.drop ws.length).takeWhile (fun c => c != '\n'))
  else none

/-- The capture of the first `see also` match in the content, if any. -/
def findSeeAlso : List Char → Option (List Char)
  | [] => none
  | c :: cs =>
    match hereSeeAlso (c :: cs) with
    | some cap => some cap
    | none => findSeeAlso cs

/-- The matches of `/\[([^\]]+)\]/g`: bracketed non-empty titles. -/
def bracketTokens : Nat → List Char → List (List Char)
  | 0, _ => []
  | Nat.succ f, s =>
    match s with
    | [] => []
    | '[' :: rest =>
      let inner := rest.takeWhile (fun c => c != ']')
      match rest.drop inner.length with
      | ']' :: post =>
        if inner.isEmpty then bracketTokens f rest else inner :: bracketTokens f post
      | _ => bracketTokens f rest
    | _ :: cs => bracketTokens f cs

/-- The `extractRelatedSections` function of the source (its section argument
is unused there as well). -/
def extractRelatedSections (content : List Char) (_sec : HIGSection) : List (List Char) :=
  let related := match findSeeAlso content with
    | none => ([] : List (List Char))
    | some cap => (bracketTokens (cap.length + 1) cap).foldl setAdd []
  related.take 5

/-- Decimal digits of a natural number. -/
def renderNatGo : Nat → Nat → List Char → List Char
  | 0, _, acc => acc
  | Nat.succ f, n, acc =>
    let d := Char.ofNat (48 + n % 10)
    if n < 10 then d :: acc else renderNatGo f (n / 10) (d :: acc)

/-- Decimal rendering of a natural number. -/
def renderNat (n : Nat) : List Char := renderNatGo (n + 1) n []

/-- JavaScript `Math.round` for non-negative values: round half up. -/
def jsRound (q : ℚ) : ℤ := ⌊q + 1/2⌋

/-- JavaScript number-to-string rendering of `k / 100` for `0 ≤ k` (the shape
`Math.round(score * 100) / 100` takes): an integer prints without a point,
otherwise trailing zeros of the two-digit fraction are dropped. -/
def renderCenti (k : ℤ) : List Char :=
  let n := k.toNat
  let ip := n / 100
  let fr := n % 100
  if fr == 0 then renderNat ip
  else if fr % 10 == 0 then renderNat ip ++ '.' :: renderNat (fr / 10)
  else if fr < 10 then renderNat ip ++ '.' :: '0' :: renderNat fr
  else renderNat ip ++ '.' :: renderNat fr

/-- JavaScript boolean rendering. -/
def boolStr (b : Bool) : List Char := if b then str "true" else str "false"

/-- `JSON.stringify` of a string array; the keyword strings serialized here
contain no characters that JSON escapes. -/
def jsonStrList (l : List (List Char)) : List Char :=
  '[' :: List.intercalate (str ",") (l.map (fun s => '"' :: s ++ ['"'])) ++ [']']

/-- The `generateFrontMatter` function of the source; the
`new Date().toISOString()` timestamp is the explicit `now` argument. -/
def generateFrontMatter (sec : HIGSection) (quality : ContentQualityMetrics)
    (keywords : List (List Char)) (now : List Char) : List Char :=
  let lines : List (List Char) :=
    [str "title: " ++ sec.title,
     str "platform: " ++ sec.platform,
     str "category: " ++ sec.category,
     str "url: " ++ sec.url,
     str "quality_score: " ++ renderCenti (jsRound (quality.score * 100)),
     str "content_length: " ++ renderNat quality.length,
     str "last_updated: " ++ now,
     str "keywords: " ++ jsonStrList keywords,
     str "has_code_examples: " ++ boolStr (decide (0 < quality.codeExamplesCount)),
     str "has_images: " ++ boolStr (decide (0 < quality.imageReferencesCount)),
     str "is_fallback: " ++ boolStr quality.isFallbackContent]
  str "---\n" ++ List.intercalate (str "\n") lines ++ str "\n---\n\n"

/-- Modelled from the spec: the hash count of a heading tag name. -/
def headingLevel (n : List Char) : Option Nat :=
  match n with
  | ['h', d] => if isDigitA d && d.toNat != 48 && d.toNat ≤ 54 then some (d.toNat - 48) else none
  | _ => none

/-- Modelled from the spec: the per-element rule table of the Structural
Converter (spec §4.2).  The converter itself is the external Turndown engine
configured in `configureTurndownRules`; its code is not part of this
repository, so the ordered rule set described by the spec is modelled
directly: images drop; residual `nav`/`footer`/`header` containers become a
blank line; headings become hash-prefixed trimmed lines padded by blank lines,
empty ones drop; `code` spans get backticks; generic block containers keep
their trimmed content (the model carries no class attributes, so no padding);
other block elements such as paragraphs are separated by blank lines; text
has horizontal whitespace collapsed. -/
def turndownChunk (name inner : List Char) : List Char :=
  let n := lowerStr name
  if n == str "img" then []
  else if n == str "nav" || n == str "footer" || n == str "header" then str "\n\n"
  else
    match headingLevel n with
    | some lvl =>
      let body := jsTrim (collapseHT inner)
      if body.isEmpty then []
      else str "\n\n" ++ List.replicate lvl '#' ++ ' ' :: body ++ str "\n\n"
    | none =>
      if n == str "code" then str "`" ++ inner ++ str "`"
      else if n == str "div" || n == str "section" || n == str "article" ||
        n == str "aside" || n == str "main" then jsTrim (collapseHT inner)
      else str "\n\n" ++ collapseHT inner ++ str "\n\n"

/-- Modelled from the spec: the Structural Converter walk over a flat element
sequence — tags with their span up to the matching close, void `img` tags,
and text runs; chunks are concatenated, blank-line runs are limited to one
blank line and the result is trimmed. -/
def turndownGo : Nat → List Char → List Char
  | 0, _ => []
  | Nat.succ f, s =>
    match s with
    | [] => []
    | '<' :: rest =>
      let name := rest.takeWhile (fun c => isLetterA c || isDigitA c)
      if name.isEmpty then '<' :: turndownGo f rest
      else
        match (rest.drop name.length).dropWhile (fun c => c != '>') with
        | '>' :: rest2 =>
          if lowerStr name == str "img" then turndownGo f rest2
          else
            match splitFirstCI ('<' :: '/' :: name ++ ['>']) rest2 with
            | none => turndownGo f rest2
            | some (inner, after) => turndownChunk name inner ++ turndownGo f after
        | _ => '<' :: turndownGo f rest
    | c :: cs =>
      let txt := (c :: cs).takeWhile (fun d => d != '<')
      collapseHT txt ++ turndownGo f ((c :: cs).drop txt.length)

/-- Modelled from the spec: the Structural Converter (spec §4.2), HTML to raw
Markdown. -/
def turndown (html : List Char) : List Char :=
  jsTrim (collapse3NL (turndownGo (html.length + 1) html))

/-- The `ProcessedContent` record of the source. -/
structure ProcessedContent where
  cleanedMarkdown : List Char
  frontMatter : List Char
  quality : ContentQualityMetrics
  keywords : List (List Char)
  relatedSections : List (List Char)

/-- The `processContent` pipeline of the source; the wall clock read inside
`generateFrontMatter` is the explicit `now` argument. -/
def processContent (html : List Char) (sec : HIGSection) (now : List Char) : ProcessedContent :=
  let cleanedHtml := cleanHtml html
  let rawMarkdown := turndown cleanedHtml
  let cleanedMarkdown := cleanMarkdown rawMarkdown
  let keywords := extractKeywords cleanedMarkdown sec
  let relatedSections := extractRelatedSections cleanedMarkdown sec
  let quality := calculateQualityMetrics cleanedMarkdown (some rawMarkdown)
  let frontMatter := generateFrontMatter sec quality keywords now
  { cleanedMarkdown := cleanedMarkdown
    frontMatter := frontMatter
    quality := quality
    keywords := keywords
    relatedSections := relatedSections }

/-! ## Helper lemmas -/

theorem dropWhile_self_idem (p : Char → Bool) (l : List Char) :
    (l.dropWhile p).dropWhile p = l.dropWhile p := by
  induction l with
  | nil => rfl
  | cons c cs ih =>
    by_cases h : p c
    · simpa [List.dropWhile_cons, h] using ih
    · simp [List.dropWhile_cons, h]

theorem collapse3NL_idem (s : List Char) : collapse3NL (collapse3NL s) = collapse3NL s := by
  induction s with
  | nil => rfl
  | cons c cs ih =>
    by_cases hc : c = '\n'
    · subst hc
      by_cases ht : (collapse3NL cs).take 2 = ['\n', '\n']
      · simpa [collapse3NL, ht] using ih
      · have h1 : collapse3NL ('\n' :: cs) = '\n' :: collapse3NL cs := by
          simp [collapse3NL, ht]
        rw [h1]
        have h2 : collapse3NL ('\n' :: collapse3NL cs) =
            if (collapse3NL (collapse3NL cs)).take 2 = ['\n', '\n'] then
              collapse3NL (collapse3NL cs)
            else '\n' :: collapse3NL (collapse3NL cs) := by
          simp [collapse3NL]
        rw [h2, ih, if_neg ht]
    · simp [collapse3NL, hc, ih]

theorem collapseHT_idem (s : List Char) : collapseHT (collapseHT s) = collapseHT s := by
  induction s with
  | nil => rfl
  | cons c cs ih =>
    by_cases hc : isHT c
    · by_cases hh : (collapseHT cs).head? = some ' '
      · simpa [collapseHT, hc, hh] using ih
      · have h1 : collapseHT (c :: cs) = ' ' :: collapseHT cs := by
          simp [collapseHT, hc, hh]
        rw [h1]
        have h2 : collapseHT (' ' :: collapseHT cs) =
            if (collapseHT (collapseHT cs)).head? = some ' ' then collapseHT (collapseHT cs)
            else ' ' :: collapseHT (collapseHT cs) := by
          simp [collapseHT, isHT]
        rw [h2, ih, if_neg hh]
    · simp [collapseHT, hc, ih]

theorem dropTrailHT_idem (l : List Char) : dropTrailHT (dropTrailHT l) = dropTrailHT l := by
  simp [dropTrailHT, dropWhile_self_idem]

theorem dropTrailHT_no_nl (l : List Char) (h : '\n' ∉ l) : '\n' ∉ dropTrailHT l := by
  intro hmem
  apply h
  have h1 : '\n' ∈ (l.reverse.dropWhile isHT) := by
    simpa [dropTrailHT] using hmem
  have h2 := (List.dropWhile_sublist (l := l.reverse) (p := isHT)).mem h1
  simpa using h2

theorem splitNL_ne_nil (s : List Char) : splitNL s ≠ [] := by
  cases s with
  | nil => simp [splitNL]
  | cons c cs =>
    by_cases h : c = '\n'
    · simp [splitNL, h]
    · simp only [splitNL, if_neg h]
      cases hs : splitNL cs with
      | nil => simp
      | cons l ls => simp

theorem splitNL_no_nl (s : List Char) : ∀ l ∈ splitNL s, '\n' ∉ l := by
  induction s with
  | nil =>
    intro l hl
    have : l = ([] : List Char) := by simpa [splitNL] using hl
    simp [this]
  | cons c cs ih =>
    intro l hl
    by_cases h : c = '\n'
    · rw [splitNL, if_pos h] at hl
      rcases List.mem_cons.mp hl with h1 | h1
      · simp [h1]
      · exact ih l h1
    · rw [splitNL, if_neg h] at hl
      cases hs : splitNL cs with
      | nil => exact absurd hs (splitNL_ne_nil cs)
      | cons m ms =>
        rw [hs] at hl
        rcases List.mem_cons.mp hl with h1 | h1
        · subst h1
          intro hmem
          rcases List.mem_cons.mp hmem with h2 | h2
          · exact h h2.symm
          · exact ih m (hs ▸ List.mem_cons_self m ms) h2
        · exact ih l (hs ▸ List.mem_cons_of_mem m h1)

theorem splitNL_single (l : List Char) (h : '\n' ∉ l) : splitNL l = [l] := by
  induction l with
  | nil => rfl
  | cons c cs ih =>
    have hc : c ≠ '\n' := fun hh => h (hh ▸ List.mem_cons_self c cs)
    have hcs : '\n' ∉ cs := fun hh => h (List.mem_cons_of_mem c hh)
    rw [splitNL, if_neg hc, ih hcs]

theorem splitNL_append_nl (l t : List Char) (h : '\n' ∉ l) :
    splitNL (l ++ '\n' :: t) = l :: splitNL t := by
  induction l with
  | nil => simp [splitNL]
  | cons c cs ih =>
    have hc : c ≠ '\n' := fun hh => h (hh ▸ List.mem_cons_self c cs)
    have hcs : '\n' ∉ cs := fun hh => h (List.mem_cons_of_mem c hh)
    rw [List.cons_append, splitNL, if_neg hc, ih hcs]

theorem splitNL_joinNL (ls : List (List Char)) (hne : ls ≠ [])
    (h : ∀ l ∈ ls, '\n' ∉ l) : splitNL (joinNL ls) = ls := by
  induction ls with
  | nil => exact absurd rfl hne
  | cons l ls ih =>
    cases ls with
    | nil =>
      simp only [joinNL]
      exact splitNL_single l (h l (List.mem_cons_self l []))
    | cons m ms =>
      have hjoin : joinNL (l :: m :: ms) = l ++ '\n' :: joinNL (m :: ms) := rfl
      rw [hjoin, splitNL_append_nl l _ (h l (List.mem_cons_self l _))]
      rw [ih (by simp) (fun x hx => h x (List.mem_cons_of_mem l hx))]

theorem stripTrailWS_idem (s : List Char) : stripTrailWS (stripTrailWS s) = stripTrailWS s := by
  unfold stripTrailWS
  rw [splitNL_joinNL]
  · rw [List.map_map]
    congr 1
    apply List.map_congr_left
    intro l _
    exact dropTrailHT_idem l
  · simp [splitNL_ne_nil]
  · intro l hl
    rcases List.mem_map.mp hl with ⟨m, hm, rfl⟩
    exact dropTrailHT_no_nl m (splitNL_no_nl s m hm)

/-! ## Claim theorems -/

/-- C1 (counterexample): the Markdown Normalizer is not idempotent.  On
`"a\n \n \nb"` the trailing-space pass runs after the newline-collapse pass
and leaves `"a\n\n\nb"`, which a second application collapses to `"a\n\nb"`. -/
theorem cleanMarkdown_not_idempotent :
    cleanMarkdown (cleanMarkdown (str "a\n \n \nb")) ≠ cleanMarkdown (str "a\n \n \nb") := by
  decide

/-- C1 (amended): each individual whitespace-normalization pass of the
Markdown Normalizer — newline-run collapsing, per-line trailing-space
stripping, and horizontal-whitespace collapsing — is idempotent on every
string; the sequential composition `cleanMarkdown` is not (see the
counterexample). -/
theorem whitespace_passes_idempotent (s : List Char) :
    collapse3NL (collapse3NL s) = collapse3NL s ∧
    stripTrailWS (stripTrailWS s) = stripTrailWS s ∧
    collapseHT (collapseHT s) = collapseHT s :=
  ⟨collapse3NL_idem s, stripTrailWS_idem s, collapseHT_idem s⟩

/-- A section fixture used by concrete evaluations. -/
def secButton : HIGSection :=
  { id := str "buttons-ios"
    title := str "Button"
    url := str "https://example.com/buttons"
    platform := str "iOS"
    category := str "foundations" }

/-- The part of the front matter before the timestamp. -/
def fmPre (sec : HIGSection) (q : ContentQualityMetrics) : List Char :=
  str "---\n" ++ (str "title: " ++ sec.title) ++ str "\n" ++
    (str "platform: " ++ sec.platform) ++ str "\n" ++
    (str "category: " ++ sec.category) ++ str "\n" ++
    (str "url: " ++ sec.url) ++ str "\n" ++
    (str "quality_score: " ++ renderCenti (jsRound (q.score * 100))) ++ str "\n" ++
    (str "content_length: " ++ renderNat q.length) ++ str "\n" ++
    str "last_updated: "

/-- The part of the front matter after the timestamp. -/
def fmSuf (q : ContentQualityMetrics) (kw : List (List Char)) : List Char :=
  str "\n" ++ (str "keywords: " ++ jsonStrList kw) ++ str "\n" ++
    (str "has_code_examples: " ++ boolStr (decide (0 < q.codeExamplesCount))) ++ str "\n" ++
    (str "has_images: " ++ boolStr (decide (0 < q.imageReferencesCount))) ++ str "\n" ++
    (str "is_fallback: " ++ boolStr q.isFallbackContent) ++ str "\n---\n\n"

theorem generateFrontMatter_shape (sec : HIGSection) (q : ContentQualityMetrics)
    (kw : List (List Char)) (t : List Char) :
    generateFrontMatter sec q kw t = fmPre sec q ++ t ++ fmSuf q kw := by
  simp [generateFrontMatter, fmPre, fmSuf, List.intercalate, List.intersperse, str]

theorem append_mid_inj (A B t1 t2 : List Char) (h : A ++ t1 ++ B = A ++ t2 ++ B) : t1 = t2 := by
  rw [List.append_assoc, List.append_assoc] at h
  exact List.append_cancel_right (List.append_cancel_left h)

theorem generateFrontMatter_now_inj (sec : HIGSection) (q : ContentQualityMetrics)
    (kw : List (List Char)) (t1 t2 : List Char)
    (h : generateFrontMatter sec q kw t1 = generateFrontMatter sec q kw t2) : t1 = t2 := by
  rw [generateFrontMatter_shape, generateFrontMatter_shape] at h
  exact append_mid_inj _ _ _ _ h

/-- C7 (counterexample): `processContent` is not deterministic across runs:
`generateFrontMatter` embeds the wall clock (`new Date().toISOString()`,
modelled by the `now` argument), so two runs at different instants yield
different `frontMatter` strings even on identical `(html, section)` inputs. -/
theorem front_matter_clock_counterexample :
    (processContent [] secButton (str "2025-01-01T00:00:00.000Z")).frontMatter ≠
    (processContent [] secButton (str "2025-01-01T00:00:01.000Z")).frontMatter := fun h =>
  absurd (generateFrontMatter_now_inj _ _ _ _ _ h) (by decide)

/-- C7 (amended): `processContent` is deterministic modulo the clock: for a
fixed input pair every field except `frontMatter` is independent of the clock
reading, and two runs with equal clock readings agree on `frontMatter` too. -/
theorem process_content_deterministic_mod_clock (html : List Char) (sec : HIGSection)
    (t1 t2 : List Char) :
    (processContent html sec t1).cleanedMarkdown = (processContent html sec t2).cleanedMarkdown ∧
    (processContent html sec t1).quality = (processContent html sec t2).quality ∧
    (processContent html sec t1).keywords = (processContent html sec t2).keywords ∧
    (processContent html sec t1).relatedSections = (processContent html sec t2).relatedSections ∧
    (t1 = t2 → (processContent html sec t1).frontMatter = (processContent html sec t2).frontMatter) :=
  ⟨rfl, rfl, rfl, rfl, fun h => h ▸ rfl⟩

/-- Witness for C7: the amended determinism theorem applied at a concrete
input with equal clock readings. -/
theorem process_content_deterministic_witness :
    (processContent (str "<p>x</p>") secButton (str "T")).frontMatter =
    (processContent (str "<p>x</p>") secButton (str "T")).frontMatter :=
  (process_content_deterministic_mod_clock (str "<p>x</p>") secButton (str "T") (str "T")).2.2.2.2
    rfl

/-- C9 (counterexample): `codeExamplesCount` can be fractional: on a content
consisting of a single triple-backtick fence the count of `/```/g` matches is
odd and the stored value is one half, not an integer. -/
theorem code_examples_fractional_counterexample :
    (calculateQualityMetrics (str "```") none).codeExamplesCount = 1/2 ∧
    ¬ ∃ n : ℕ, (calculateQualityMetrics (str "```") none).codeExamplesCount = (n : ℚ) := by
  have hcount : countMatches hereFence ((str "```").length + 1) (str "```") = 1 := by decide
  have hval : (calculateQualityMetrics (str "```") none).codeExamplesCount = 1/2 := by
    show codeExamplesCountOf (str "```") = 1/2
    rw [codeExamplesCountOf, hcount]
    norm_num
  refine ⟨hval, ?_⟩
  rw [hval]
  rintro ⟨n, hn⟩
  cases n with
  | zero => norm_num at hn
  | succ m =>
    have h1 : (1 : ℚ) ≤ ((m + 1 : ℕ) : ℚ) := by
      push_cast
      linarith [Nat.cast_nonneg (α := ℚ) m]
    rw [← hn] at h1
    norm_num at h1

/-- C9 (amended): `quality.codeExamplesCount` always equals the number of
`/```/g` matches in the content divided by two and is non-negative; it is an
integer whenever the fence count is even (fences come in pairs in well-formed
markdown), and a lone fence makes it a half-integer. -/
theorem code_examples_count_amended (content : List Char) (orig : Option (List Char)) :
    (calculateQualityMetrics content orig).codeExamplesCount =
      (countMatches hereFence (content.length + 1) content : ℚ) / 2 ∧
    0 ≤ (calculateQualityMetrics content orig).codeExamplesCount ∧
    (countMatches hereFence (content.length + 1) content % 2 = 0 →
      ∃ n : ℕ, (calculateQualityMetrics content orig).codeExamplesCount = (n : ℚ)) := by
  refine ⟨rfl, ?_, ?_⟩
  · show (0 : ℚ) ≤ (countMatches hereFence (content.length + 1) content : ℚ) / 2
    positivity
  · intro hev
    refine ⟨countMatches hereFence (content.length + 1) content / 2, ?_⟩
    show ((countMatches hereFence (content.length + 1) content : ℚ)) / 2 = _
    have h2 : 2 * (countMatches hereFence (content.length + 1) content / 2) =
        countMatches hereFence (content.length + 1) content :=
      Nat.mul_div_cancel' (Nat.dvd_of_mod_eq_zero hev)
    have h3 : ((2 * (countMatches hereFence (content.length + 1) content / 2) : ℕ) : ℚ) =
        (countMatches hereFence (content.length + 1) content : ℚ) := by
      exact_mod_cast congrArg (Nat.cast : ℕ → ℚ) h2
    push_cast at h3
    linarith

/-- Witness for C9: the amended statement applied at a content with two fences,
where the count is even and the stored value is the integer one. -/
theorem code_examples_count_witness :
    (calculateQualityMetrics (str "``````") none).codeExamplesCount =
      (countMatches hereFence ((str "``````").length + 1) (str "``````") : ℚ) / 2 ∧
    0 ≤ (calculateQualityMetrics (str "``````") none).codeExamplesCount ∧
    ∃ n : ℕ, (calculateQualityMetrics (str "``````") none).codeExamplesCount = (n : ℚ) := by
  have h := code_examples_count_amended (str "``````") none
  exact ⟨h.1, h.2.1, h.2.2 (by decide)⟩

theorem detect_true_rawScore (c : List Char) (o : Option (List Char))
    (h : detectFallbackContent c o = true) : rawScoreOf c o = 1/10 := by
  unfold rawScoreOf
  rw [h]
  simp

theorem quality_fallback_iff_general (c : List Char) (o : Option (List Char)) :
    ((calculateQualityMetrics c o).isFallbackContent = true) ↔
    ((calculateQualityMetrics c o).score = 1/10 ∧
     (calculateQualityMetrics c o).confidence = 1/10) := by
  show (detectFallbackContent c o = true) ↔
    (min 1 (rawScoreOf c o) = 1/10 ∧
     (if detectFallbackContent c o then (1 : ℚ)/10 else min 1 (rawScoreOf c o + 1/10)) = 1/10)
  cases hf : detectFallbackContent c o with
  | true =>
    have hsc : min 1 (rawScoreOf c o) = 1/10 := by
      rw [detect_true_rawScore c o hf]
      norm_num
    simp [hsc]
  | false =>
    simp only [Bool.false_eq_true, false_iff, if_false]
    rintro ⟨hs, hc⟩
    rcases le_total (rawScoreOf c o + 1/10) 1 with hle | hle
    · rw [min_eq_right hle] at hc
      have hr0 : rawScoreOf c o = 0 := by linarith
      rw [hr0] at hs
      norm_num at hs
    · rw [min_eq_left hle] at hc
      norm_num at hc

/-- C2: for every pipeline input, the returned quality metrics satisfy
`isFallbackContent = true` if and only if `score = 0.1` and
`confidence = 0.1`: the fallback branch pins both to `0.1`, and in the other
branches `confidence = min 1 (score' + 0.1)` can only be `0.1` when the raw
score is `0`, which forces the reported score to `0`, not `0.1`. -/
theorem quality_fallback_iff (html : List Char) (sec : HIGSection) (now : List Char) :
    ((processContent html sec now).quality.isFallbackContent = true) ↔
    ((processContent html sec now).quality.score = 1/10 ∧
     (processContent html sec now).quality.confidence = 1/10) :=
  quality_fallback_iff_general _ _

/-- The guideline-signal set as the claim states it (best practices,
guideline, accessibility, consider, ensure, avoid) — compare
`hasGuidelinesOf`, the set the code actually tests (best practices,
guideline, consider, avoid, should, when). -/
def specGuidelineSignal (content : List Char) : Bool :=
  let contentLower := lowerStr content
  containsCS (str "best practices") contentLower ||
  containsCS (str "guideline") contentLower ||
  containsCS (str "accessibility") contentLower ||
  containsCS (str "consider") contentLower ||
  containsCS (str "ensure") contentLower ||
  containsCS (str "avoid") contentLower

/-- The non-fallback, non-SPA score formula exactly as the claim words it,
with the claim's guideline-signal set. -/
def specClaimedScore (content : List Char) : ℚ :=
  min 1 (lengthScoreOf content * (1/5) + structureScoreOf content * (3/20) +
    appleTermsScoreOf content * (3/20) +
    (if specGuidelineSignal content then (2 : ℚ)/5 else 0) * (7/20) +
    structureBonusOf content * (3/20))

/-- C4 (counterexample): the content `"should"` is neither fallback nor in the
SPA branch, the code awards it the guideline score (its set includes
`should`), but the claim's guideline-signal set does not contain `should`, so
the claimed formula disagrees with the computed score (283/2000 vs 3/2000). -/
theorem guideline_signal_counterexample :
    detectFallbackContent (str "should") none = false ∧
    (hasAppleSPAIssuesOf (str "should") && !(decide (400 < (str "should").length))) = false ∧
    (calculateQualityMetrics (str "should") none).score ≠ specClaimedScore (str "should") := by
  have h1 : detectFallbackContent (str "should") none = false := by decide
  have h2 : (hasAppleSPAIssuesOf (str "should") &&
      !(decide (400 < (str "should").length))) = false := by decide
  refine ⟨h1, h2, ?_⟩
  have hg : hasGuidelinesOf (str "should") = true := by decide
  have hsg : specGuidelineSignal (str "should") = false := by decide
  have hlen : (str "should").length = 6 := by decide
  have hhc : headingCountOf (str "should") = 0 := by decide
  have hspa : hasAppleSPAIssuesOf (str "should") = false := by decide
  have hfc : countMatches hereFence 7 (str "should") = 0 := by decide
  have hat : appleTermsFoundOf (str "should") = 0 := by decide
  show min 1 (rawScoreOf (str "should") none) ≠ specClaimedScore (str "should")
  simp only [rawScoreOf, h1, h2, hspa, Bool.false_eq_true, if_false, specClaimedScore,
    normalScoreOf, lengthScoreOf, structureScoreOf, codeExamplesCountOf, appleTermsScoreOf,
    guidelineScoreOf, structureBonusOf, hg, hsg, hlen, hhc, hfc, hat, if_true]
  norm_num [min_def]

/-- C4 (amended): for every input that is neither fallback nor in the
SPA-artifact branch, the score equals
`min 1 (lengthScore*0.2 + structureScore*0.15 + appleTermsScore*0.15 +
guidelineScore*0.35 + structureBonus*0.15)` with
`lengthScore = min 1 (length/800)`, `structureBonus = 0.2` exactly when
`headingCount ≥ 2`, and `guidelineScore = 0.4` exactly when the content
contains one of the code's guideline phrases (best practices, guideline,
consider, avoid, should, when — not the claim's accessibility/ensure set). -/
theorem normal_score_formula (content : List Char) (orig : Option (List Char))
    (h1 : detectFallbackContent content orig = false)
    (h2 : (hasAppleSPAIssuesOf content && !(decide (400 < content.length))) = false) :
    (calculateQualityMetrics content orig).score =
      min 1 ((min 1 ((content.length : ℚ) / 800)) * (1/5) + structureScoreOf content * (3/20) +
        appleTermsScoreOf content * (3/20) +
        (if hasGuidelinesOf content then (2 : ℚ)/5 else 0) * (7/20) +
        (if 2 ≤ headingCountOf content then (1 : ℚ)/5 else 0) * (3/20)) := by
  show min 1 (rawScoreOf content orig) = _
  simp only [rawScoreOf, h1, h2, Bool.false_eq_true, if_false]
  rfl

/-- Witness for C4: the amended formula applied at the content `"should"`,
whose hypotheses hold by evaluation. -/
theorem normal_score_formula_witness :
    detectFallbackContent (str "should") none = false ∧
    (hasAppleSPAIssuesOf (str "should") && !(decide (400 < (str "should").length))) = false ∧
    (calculateQualityMetrics (str "should") none).score =
      min 1 ((min 1 (((str "should").length : ℚ) / 800)) * (1/5) +
        structureScoreOf (str "should") * (3/20) +
        appleTermsScoreOf (str "should") * (3/20) +
        (if hasGuidelinesOf (str "should") then (2 : ℚ)/5 else 0) * (7/20) +
        (if 2 ≤ headingCountOf (str "should") then (1 : ℚ)/5 else 0) * (3/20)) :=
  ⟨by decide, by decide, normal_score_formula (str "should") none (by decide) (by decide)⟩

theorem setAdd_nodup (l : List (List Char)) (x : List Char) (h : l.Nodup) :
    (setAdd l x).Nodup := by
  unfold setAdd
  split
  · exact h
  · next hx => simpa [List.nodup_append] using ⟨h, hx⟩

theorem mem_setAdd_self (l : List (List Char)) (x : List Char) : x ∈ setAdd l x := by
  unfold setAdd
  split
  · assumption
  · simp

theorem mem_setAdd_of_mem (l : List (List Char)) (x y : List Char) (h : x ∈ l) :
    x ∈ setAdd l y := by
  unfold setAdd
  split
  · exact h
  · exact List.mem_append_left _ h

theorem mem_of_mem_setAdd (l : List (List Char)) (x y : List Char) (h : x ∈ setAdd l y) :
    x ∈ l ∨ x = y := by
  unfold setAdd at h
  split at h
  · exact Or.inl h
  · rcases List.mem_append.mp h with h1 | h1
    · exact Or.inl h1
    · exact Or.inr (List.mem_singleton.mp h1)

theorem setAdd_exists_append (l : List (List Char)) (x : List Char) :
    ∃ e, setAdd l x = l ++ e := by
  unfold setAdd
  split
  · exact ⟨[], by simp⟩
  · exact ⟨[x], rfl⟩

theorem setAdd_length_le (l : List (List Char)) (x : List Char) :
    (setAdd l x).length ≤ l.length + 1 := by
  unfold setAdd
  split
  · omega
  · simp

theorem foldl_setAdd_like_nodup (g : List (List Char) → List Char → List (List Char))
    (hg : ∀ acc w, g acc w = acc ∨ g acc w = setAdd acc w) :
    ∀ (ws : List (List Char)) (acc : List (List Char)), acc.Nodup → (List.foldl g acc ws).Nodup
  | [], _, h => h
  | w :: ws, acc, h => by
    rw [List.foldl_cons]
    refine foldl_setAdd_like_nodup g hg ws (g acc w) ?_
    rcases hg acc w with h1 | h1 <;> rw [h1]
    · exact h
    · exact setAdd_nodup acc w h

theorem foldl_setAdd_like_exists_append (g : List (List Char) → List Char → List (List Char))
    (hg : ∀ acc w, g acc w = acc ∨ g acc w = setAdd acc w) :
    ∀ (ws : List (List Char)) (acc : List (List Char)), ∃ e, List.foldl g acc ws = acc ++ e
  | [], acc => ⟨[], by simp⟩
  | w :: ws, acc => by
    rw [List.foldl_cons]
    rcases hg acc w with h1 | h1 <;> rw [h1]
    · exact foldl_setAdd_like_exists_append g hg ws acc
    · obtain ⟨e1, he1⟩ := foldl_setAdd_like_exists_append g hg ws (setAdd acc w)
      obtain ⟨e0, he0⟩ := setAdd_exists_append acc w
      exact ⟨e0 ++ e1, by rw [he1, he0, List.append_assoc]⟩

theorem foldl_setAdd_like_mem_preserve (g : List (List Char) → List Char → List (List Char))
    (hg : ∀ acc w, g acc w = acc ∨ g acc w = setAdd acc w)
    (ws : List (List Char)) (acc : List (List Char)) (x : List Char) (h : x ∈ acc) :
    x ∈ List.foldl g acc ws := by
  obtain ⟨e, he⟩ := foldl_setAdd_like_exists_append g hg ws acc
  rw [he]
  exact List.mem_append_left _ h

theorem foldl_setAdd_like_mem (g : List (List Char) → List Char → List (List Char))
    (P : List Char → Prop) :
    ∀ (ws : List (List Char)),
      (∀ acc w, w ∈ ws → g acc w = acc ∨ (g acc w = setAdd acc w ∧ P w)) →
      ∀ (acc : List (List Char)) (x : List Char), x ∈ List.foldl g acc ws → x ∈ acc ∨ P x
  | [], _, _, _, h => Or.inl h
  | w :: ws, hg, acc, x, h => by
    rw [List.foldl_cons] at h
    have hgtail : ∀ acc2 w2, w2 ∈ ws → g acc2 w2 = acc2 ∨ (g acc2 w2 = setAdd acc2 w2 ∧ P w2) :=
      fun acc2 w2 hw2 => hg acc2 w2 (List.mem_cons_of_mem w hw2)
    rcases foldl_setAdd_like_mem g P ws hgtail (g acc w) x h with h1 | h1
    · rcases hg acc w (List.mem_cons_self w ws) with h2 | ⟨h2, hp⟩
      · exact Or.inl (h2 ▸ h1)
      · rw [h2] at h1
        rcases mem_of_mem_setAdd acc x w h1 with h3 | h3
        · exact Or.inl h3
        · exact Or.inr (h3 ▸ hp)
    · exact Or.inr h1

theorem mem_take_of_mem_prefix (pre e : List (List Char)) (x : List Char) (n : Nat)
    (hx : x ∈ pre) (hlen : pre.length ≤ n) : x ∈ (pre ++ e).take n := by
  rw [List.take_append_eq_append_take, List.take_of_length_le hlen]
  exact List.mem_append_left _ hx

theorem kwStep_cases (acc : List (List Char)) (w : List Char) :
    (if w ∈ appleDesignTerms then setAdd acc w else acc) = acc ∨
    (if w ∈ appleDesignTerms then setAdd acc w else acc) = setAdd acc w := by
  split
  · exact Or.inr rfl
  · exact Or.inl rfl

theorem kwStep_cases_mem (acc : List (List Char)) (w : List Char) :
    (if w ∈ appleDesignTerms then setAdd acc w else acc) = acc ∨
    ((if w ∈ appleDesignTerms then setAdd acc w else acc) = setAdd acc w ∧
      w ∈ appleDesignTerms) := by
  split
  · next h => exact Or.inr ⟨rfl, h⟩
  · exact Or.inl rfl

theorem kwSeeds_facts (sec : HIGSection) :
    let seeds := setAdd (setAdd (setAdd [] (lowerStr sec.title)) (lowerStr sec.platform))
      (lowerStr sec.category)
    seeds.Nodup ∧ seeds.length ≤ 3 ∧ lowerStr sec.title ∈ seeds ∧
      lowerStr sec.platform ∈ seeds ∧ lowerStr sec.category ∈ seeds := by
  intro seeds
  refine ⟨?_, ?_, ?_, ?_, ?_⟩
  · exact setAdd_nodup _ _ (setAdd_nodup _ _ (setAdd_nodup _ _ List.nodup_nil))
  · calc seeds.length ≤ (setAdd (setAdd [] (lowerStr sec.title)) (lowerStr sec.platform)).length + 1 :=
        setAdd_length_le _ _
      _ ≤ ((setAdd [] (lowerStr sec.title)).length + 1) + 1 := by
          have := setAdd_length_le (setAdd [] (lowerStr sec.title)) (lowerStr sec.platform)
          omega
      _ ≤ 3 := by
          have := setAdd_length_le ([] : List (List Char)) (lowerStr sec.title)
          simp at this
          omega
  · exact mem_setAdd_of_mem _ _ _ (mem_setAdd_of_mem _ _ _ (mem_setAdd_self _ _))
  · exact mem_setAdd_of_mem _ _ _ (mem_setAdd_self _ _)
  · exact mem_setAdd_self _ _

theorem extractKeywords_facts (content : List Char) (sec : HIGSection) :
    (extractKeywords content sec).length ≤ 20 ∧
    (extractKeywords content sec).Nodup ∧
    lowerStr sec.title ∈ extractKeywords content sec ∧
    lowerStr sec.platform ∈ extractKeywords content sec ∧
    lowerStr sec.category ∈ extractKeywords content sec := by
  obtain ⟨hnd, hlen, ht, hp, hc⟩ := kwSeeds_facts sec
  simp only [extractKeywords]
  obtain ⟨e, he⟩ := foldl_setAdd_like_exists_append _ kwStep_cases (matchWordTokens content) _
  refine ⟨List.length_take_le _ _, ?_, ?_, ?_, ?_⟩
  · exact ((List.take_sublist _ _).nodup (foldl_setAdd_like_nodup _ kwStep_cases _ _ hnd))
  · rw [he]
    exact mem_take_of_mem_prefix _ _ _ _ ht (by omega)
  · rw [he]
    exact mem_take_of_mem_prefix _ _ _ _ hp (by omega)
  · rw [he]
    exact mem_take_of_mem_prefix _ _ _ _ hc (by omega)

theorem extractRelatedSections_facts (content : List Char) (sec : HIGSection) :
    (extractRelatedSections content sec).length ≤ 5 ∧
    (extractRelatedSections content sec).Nodup := by
  simp only [extractRelatedSections]
  constructor
  · split <;> exact List.length_take_le _ _
  · split
    · simp
    · exact (List.take_sublist _ _).nodup
        (foldl_setAdd_like_nodup _ (fun acc w => Or.inr rfl) _ _ List.nodup_nil)

/-- C8: for every pipeline input, `keywords` has at most twenty entries and
`relatedSections` at most five, neither contains a duplicate, and `keywords`
always contains the lower-cased section title, platform and category (they are
inserted first into the set, so the cap cannot push them out). -/
theorem keyword_related_bounds (html : List Char) (sec : HIGSection) (now : List Char) :
    (processContent html sec now).keywords.length ≤ 20 ∧
    (processContent html sec now).relatedSections.length ≤ 5 ∧
    (processContent html sec now).keywords.Nodup ∧
    (processContent html sec now).relatedSections.Nodup ∧
    lowerStr sec.title ∈ (processContent html sec now).keywords ∧
    lowerStr sec.platform ∈ (processContent html sec now).keywords ∧
    lowerStr sec.category ∈ (processContent html sec now).keywords := by
  simp only [processContent]
  exact ⟨(extractKeywords_facts _ _).1, (extractRelatedSections_facts _ _).1,
    (extractKeywords_facts _ _).2.1, (extractRelatedSections_facts _ _).2,
    (extractKeywords_facts _ _).2.2.1, (extractKeywords_facts _ _).2.2.2.1,
    (extractKeywords_facts _ _).2.2.2.2⟩

theorem matchWordTokens_prop (content t : List Char) (ht : t ∈ matchWordTokens content) :
    3 ≤ t.length ∧ t.all isLowerA = true := by
  unfold matchWordTokens at ht
  rcases List.mem_filter.mp ht with ⟨_, hp⟩
  rw [Bool.and_eq_true, decide_eq_true_iff] at hp
  exact ⟨hp.1, hp.2⟩

/-- C10: every keyword is either one of the three seeds (lower-cased title,
platform, category) or a content token: a single all-lowercase alphabetic word
of length at least three that equals a domain-vocabulary entry; in particular
it contains no space, so the multi-word vocabulary entries can never be added
from content. -/
theorem content_keywords_shape (content : List Char) (sec : HIGSection) (k : List Char)
    (hk : k ∈ extractKeywords content sec) :
    (k = lowerStr sec.title ∨ k = lowerStr sec.platform ∨ k = lowerStr sec.category) ∨
    (3 ≤ k.length ∧ k.all isLowerA = true ∧ k ∈ appleDesignTerms ∧ ' ' ∉ k) := by
  simp only [extractKeywords] at hk
  have hk2 := List.mem_of_mem_take hk
  rcases foldl_setAdd_like_mem _
      (fun w => 3 ≤ w.length ∧ w.all isLowerA = true ∧ w ∈ appleDesignTerms)
      (matchWordTokens content)
      (fun acc w hw => by
        rcases kwStep_cases_mem acc w with h | ⟨h, hterm⟩
        · exact Or.inl h
        · obtain ⟨hl, ha⟩ := matchWordTokens_prop content w hw
          exact Or.inr ⟨h, hl, ha, hterm⟩)
      _ k hk2 with hseed | ⟨hlen, hall, hterm⟩
  · left
    rcases mem_of_mem_setAdd _ _ _ hseed with h1 | h1
    · rcases mem_of_mem_setAdd _ _ _ h1 with h2 | h2
      · rcases mem_of_mem_setAdd _ _ _ h2 with h3 | h3
        · simp at h3
        · exact Or.inl h3
      · exact Or.inr (Or.inl h2)
    · exact Or.inr (Or.inr h1)
  · right
    refine ⟨hlen, hall, hterm, ?_⟩
    intro hsp
    have := List.all_eq_true.mp hall ' ' hsp
    simp [isLowerA] at this

/-- Witness for C10: the keyword `buttons` extracted from content satisfies
the token disjunct at a concrete input. -/
theorem content_keywords_shape_witness :
    str "buttons" ∈ extractKeywords (str "use buttons here") secButton ∧
    ((str "buttons" = lowerStr secButton.title ∨ str "buttons" = lowerStr secButton.platform ∨
      str "buttons" = lowerStr secButton.category) ∨
     (3 ≤ (str "buttons").length ∧ (str "buttons").all isLowerA = true ∧
      str "buttons" ∈ appleDesignTerms ∧ ' ' ∉ str "buttons")) :=
  ⟨by decide, content_keywords_shape (str "use buttons here") secButton (str "buttons") (by decide)⟩

/-- The spec's Button test input (claim C3). -/
def c3html : List Char :=
  str "<nav>Skip</nav><h1>Button</h1><p>Use buttons to let people take actions. Best practices: avoid tiny targets and consider touch target size.</p>"

/-- The raw markdown the modelled converter produces for `c3html`. -/
def c3raw : List Char :=
  str "# Button\n\nUse buttons to let people take actions. Best practices: avoid tiny targets and consider touch target size."

/-- The cleaned markdown the normalizer produces for `c3raw`: the
space-after-heading regex has split the final heading character. -/
def c3md : List Char :=
  str "# Butto\n\nn\n\nUse buttons to let people take actions. Best practices: avoid tiny targets and consider touch target size."

theorem c3_rawMarkdown : turndown (cleanHtml c3html) = c3raw := by decide

theorem c3_cleanedMarkdown : cleanMarkdown (turndown (cleanHtml c3html)) = c3md := by
  rw [c3_rawMarkdown]
  decide

/-- C3 (counterexample): on the spec's Button input the cleaned markdown does
not contain `# Button` at all (the space-after-heading regex splits the final
character of the heading line), so the claimed conjunction fails. -/
theorem button_example_counterexample :
    ¬ (containsCS (str "# Button") (processContent c3html secButton (str "T")).cleanedMarkdown
        = true ∧
       containsCS (str "Best practices") (processContent c3html secButton (str "T")).cleanedMarkdown
        = true ∧
       containsCS (str "Skip") (processContent c3html secButton (str "T")).cleanedMarkdown
        = false ∧
       3/10 < (processContent c3html secButton (str "T")).quality.score) := by
  intro h
  have h1 := h.1
  rw [show (processContent c3html secButton (str "T")).cleanedMarkdown =
      cleanMarkdown (turndown (cleanHtml c3html)) from rfl, c3_cleanedMarkdown] at h1
  exact absurd h1 (by decide)

/-- C3 (amended): on the spec's Button input the output contains the mangled
heading `# Butto` followed by a blank line and the split-off `n` (not a
blank-line-padded `# Button`), does contain `Best practices`, contains no
`Skip`, and the score is exactly 429/2000 = 0.2145, which is not greater than
0.3 (length 118 gives a small length score and only one heading). -/
theorem button_example_amended :
    (processContent c3html secButton (str "T")).cleanedMarkdown = c3md ∧
    containsCS (str "# Butto\n\nn") c3md = true ∧
    containsCS (str "Best practices") c3md = true ∧
    containsCS (str "Skip") c3md = false ∧
    (processContent c3html secButton (str "T")).quality.score = 429/2000 := by
  have hmd : (processContent c3html secButton (str "T")).cleanedMarkdown = c3md := by
    rw [show (processContent c3html secButton (str "T")).cleanedMarkdown =
        cleanMarkdown (turndown (cleanHtml c3html)) from rfl, c3_cleanedMarkdown]
  refine ⟨hmd, by decide, by decide, by decide, ?_⟩
  have hq : (processContent c3html secButton (str "T")).quality =
      calculateQualityMetrics c3md (some c3raw) := by
    rw [show (processContent c3html secButton (str "T")).quality =
        calculateQualityMetrics (cleanMarkdown (turndown (cleanHtml c3html)))
          (some (turndown (cleanHtml c3html))) from rfl,
      c3_cleanedMarkdown, c3_rawMarkdown]
  rw [hq]
  have h1 : detectFallbackContent c3md (some c3raw) = false := by decide
  have h2 : hasAppleSPAIssuesOf c3md = false := by decide
  have hlen : c3md.length = 118 := by decide
  have hhc : headingCountOf c3md = 1 := by decide
  have hfc : countMatches hereFence (c3md.length + 1) c3md = 0 := by decide
  have hat : appleTermsFoundOf c3md = 2 := by decide
  have hg : hasGuidelinesOf c3md = true := by decide
  have hrs : rawScoreOf c3md (some c3raw) = normalScoreOf c3md := by
    simp [rawScoreOf, h1, h2]
  have hls : lengthScoreOf c3md = 59/400 := by
    rw [lengthScoreOf, hlen]
    norm_num [min_def]
  have hss : structureScoreOf c3md = 1/10 := by
    rw [structureScoreOf, codeExamplesCountOf, hfc, hhc]
    norm_num [min_def]
  have has' : appleTermsScoreOf c3md = 1/5 := by
    rw [appleTermsScoreOf, hat]
    norm_num [min_def]
  have hgs : guidelineScoreOf c3md = 2/5 := by
    simp [guidelineScoreOf, hg]
  have hb : structureBonusOf c3md = 0 := by
    rw [structureBonusOf, hhc]
    norm_num
  show min 1 (rawScoreOf c3md (some c3raw)) = 429/2000
  rw [hrs, normalScoreOf, hls, hss, has', hgs, hb]
  norm_num [min_def]

theorem gRep_step_none (step : RepStep) (fuel : Nat) (s : List Char) (h : step s = none) :
    gRep step fuel s = s := by
  cases fuel <;> simp [gRep, h]

theorem gRepLS_step_none
    (step : Bool → List Char → Option (List Char × Bool × List Char × List Char))
    (fuel : Nat) (b : Bool) (s : List Char) (h : step b s = none) :
    gRepLS step fuel b s = s := by
  cases fuel <;> simp [gRepLS, h]

theorem containsCS_cons_false (pat : List Char) (c : Char) (cs : List Char)
    (h : containsCS pat (c :: cs) = false) :
    isPrefixCS pat (c :: cs) = false ∧ containsCS pat cs = false := by
  unfold containsCS splitFirstCS at h
  by_cases hp : isPrefixCS pat (c :: cs)
  · rw [if_pos hp] at h
    simp at h
  · rw [if_neg hp] at h
    refine ⟨Bool.eq_false_iff.mpr hp, ?_⟩
    unfold containsCS
    cases hs : splitFirstCS pat cs with
    | none => simp
    | some pr =>
      rw [hs] at h
      simp at h

theorem take_two_nl (cs : List Char) (h : cs.take 2 = ['\n', '\n']) :
    ∃ rest, cs = '\n' :: '\n' :: rest := by
  cases cs with
  | nil => simp at h
  | cons a as =>
    cases as with
    | nil => simp at h
    | cons b bs =>
      simp [List.take] at h
      exact ⟨bs, by rw [h.1, h.2]⟩

theorem collapse3NL_no_triple (s : List Char)
    (h : containsCS ['\n', '\n', '\n'] s = false) : collapse3NL s = s := by
  induction s with
  | nil => rfl
  | cons c cs ih =>
    obtain ⟨hp, hcs⟩ := containsCS_cons_false _ _ _ h
    by_cases hc : c = '\n'
    · subst hc
      have hr : collapse3NL cs = cs := ih hcs
      have ht : ¬ cs.take 2 = ['\n', '\n'] := by
        intro htk
        obtain ⟨rest, hrest⟩ := take_two_nl cs htk
        rw [hrest] at hp
        simp [isPrefixCS] at hp
      simp [collapse3NL, hr, ht]
    · simp [collapse3NL, hc, ih hcs]

theorem collapseHT_no_ht (s : List Char) (h : ∀ c ∈ s, isHT c = false) : collapseHT s = s := by
  induction s with
  | nil => rfl
  | cons c cs ih =>
    have hc : isHT c = false := h c (List.mem_cons_self c cs)
    have hcs : collapseHT cs = cs := ih (fun d hd => h d (List.mem_cons_of_mem c hd))
    simp [collapseHT, hc, hcs]

theorem joinNL_cons_cons (c : Char) (l : List Char) (ls : List (List Char)) :
    joinNL ((c :: l) :: ls) = c :: joinNL (l :: ls) := by
  cases ls <;> simp [joinNL]

theorem joinNL_splitNL (s : List Char) : joinNL (splitNL s) = s := by
  induction s with
  | nil => rfl
  | cons c cs ih =>
    by_cases hc : c = '\n'
    · subst hc
      rw [splitNL, if_pos rfl]
      cases hs : splitNL cs with
      | nil => exact absurd hs (splitNL_ne_nil cs)
      | cons l ls =>
        have : joinNL ([] :: l :: ls) = '\n' :: joinNL (l :: ls) := by simp [joinNL]
        rw [this, ← hs, ih]
    · rw [splitNL, if_neg hc]
      cases hs : splitNL cs with
      | nil => exact absurd hs (splitNL_ne_nil cs)
      | cons l ls =>
        rw [joinNL_cons_cons, ← hs, ih]

theorem stripTrailWS_no_trail (s : List Char) (h : ∀ l ∈ splitNL s, dropTrailHT l = l) :
    stripTrailWS s = s := by
  unfold stripTrailWS
  rw [List.map_congr_left h]
  simp only [List.map_id']
  exact joinNL_splitNL s

theorem removeRepeatedTitlesGo_none (lines : List (List Char))
    (h : ∀ l ∈ lines, titleOf l = none) :
    ∀ counts, removeRepeatedTitlesGo lines counts = lines := by
  induction lines with
  | nil => intro counts; rfl
  | cons l ls ih =>
    intro counts
    rw [removeRepeatedTitlesGo, h l (List.mem_cons_self l ls)]
    rw [ih (fun x hx => h x (List.mem_cons_of_mem l hx)) counts]

theorem removeRepeatedTitles_none (s : List Char) (h : ∀ l ∈ splitNL s, titleOf l = none) :
    removeRepeatedTitles s = s := by
  unfold removeRepeatedTitles
  rw [removeRepeatedTitlesGo_none _ h, joinNL_splitNL]

/-- C6: the pipeline is total — every `(html, section)` input produces a
`ProcessedContent` value (all stages are total functions of the embedding,
with the external converter spec-modelled) — and each normalization step
leaves the text unchanged when its pattern finds no match: global and
line-anchored replacement drivers are the identity when their step finds no
leftmost match, and the banner, supported-platforms, repeated-title,
whitespace and trim passes are the identity under their respective no-match
conditions. -/
theorem pipeline_total_and_noop :
    (∀ (html : List Char) (sec : HIGSection) (now : List Char),
      ∃ out, processContent html sec now = out) ∧
    (∀ (step : RepStep) (fuel : Nat) (s : List Char), step s = none → gRep step fuel s = s) ∧
    (∀ (step : Bool → List Char → Option (List Char × Bool × List Char × List Char))
      (fuel : Nat) (b : Bool) (s : List Char), step b s = none → gRepLS step fuel b s = s) ∧
    (∀ s : List Char, hereJsBannerLead s = none → removeJsBannerLead s = s) ∧
    (∀ s : List Char, hereJsBannerHead s = none → removeJsBannerHead s = s) ∧
    (∀ s : List Char,
      splitFirstCI (str "supported platforms") ((s.reverse.takeWhile (fun c => c != '\n')).reverse)
        = none → removeSupportedPlatforms s = s) ∧
    (∀ s : List Char, (∀ l ∈ splitNL s, titleOf l = none) → removeRepeatedTitles s = s) ∧
    (∀ s : List Char, containsCS ['\n', '\n', '\n'] s = false → collapse3NL s = s) ∧
    (∀ s : List Char, (∀ l ∈ splitNL s, dropTrailHT l = l) → stripTrailWS s = s) ∧
    (∀ s : List Char, (∀ c ∈ s, isHT c = false) → collapseHT s = s) ∧
    (∀ s : List Char, s.dropWhile isSpaceJS = s → s.reverse.dropWhile isSpaceJS = s.reverse →
      jsTrim s = s) := by
  refine ⟨fun html sec now => ⟨_, rfl⟩, gRep_step_none, gRepLS_step_none, ?_, ?_, ?_,
    removeRepeatedTitles_none, collapse3NL_no_triple, stripTrailWS_no_trail,
    collapseHT_no_ht, ?_⟩
  · intro s h
    unfold removeJsBannerLead
    rw [h]
  · intro s h
    unfold removeJsBannerHead
    rw [h]
  · intro s h
    simp only [removeSupportedPlatforms, h]
  · intro s h1 h2
    unfold jsTrim
    rw [h1, h2, List.reverse_reverse]

/-- Witness for C6: three of the no-match conjuncts instantiated at concrete
strings whose patterns do not match. -/
theorem pipeline_total_and_noop_witness :
    removeJsBannerLead (str "plain text") = str "plain text" ∧
    collapse3NL (str "a\n\nb") = str "a\n\nb" ∧
    collapseHT (str "ab") = str "ab" :=
  ⟨pipeline_total_and_noop.2.2.2.1 (str "plain text") (by decide),
   pipeline_total_and_noop.2.2.2.2.2.2.2.1 (str "a\n\nb") (by decide),
   pipeline_total_and_noop.2.2.2.2.2.2.2.2.2.1 (str "ab") (by decide)⟩

/-! ## Sanitizer removal lemmas (claim C5) -/

theorem isLowerA_facts (c : Char) (h : isLowerA c = true) : 97 ≤ c.toNat ∧ c.toNat ≤ 122 := by
  simpa [isLowerA, Bool.and_eq_true, decide_eq_true_iff] using h

theorem lowerChar_of_lower (c : Char) (h : isLowerA c = true) : lowerChar c = c := by
  obtain ⟨h1, _⟩ := isLowerA_facts c h
  have hu : isUpperA c = false := by
    simp only [isUpperA, Bool.and_eq_false_iff, decide_eq_false_iff_not]
    omega
  simp [lowerChar, hu]

theorem lt_ne_lower (c : Char) (h : isLowerA c = true) : lowerChar '<' ≠ lowerChar c := by
  obtain ⟨h1, _⟩ := isLowerA_facts c h
  rw [lowerChar_of_lower c h]
  show '<' ≠ c
  intro he
  rw [← he] at h1
  exact absurd h1 (by decide)

theorem lt_ne_lower_or_nl (c : Char) (h : isLowerA c = true ∨ c = '\n') :
    lowerChar '<' ≠ lowerChar c := by
  rcases h with h | h
  · exact lt_ne_lower c h
  · subst h
    decide

theorem isPrefixCI_head_false (p : Char) (ps : List Char) (c : Char) (cs : List Char)
    (h : lowerChar p ≠ lowerChar c) : isPrefixCI (p :: ps) (c :: cs) = false := by
  rw [isPrefixCI]
  rw [beq_eq_false_iff_ne.mpr h, Bool.false_and]

theorem splitFirstCI_append_none (p : Char) (ps : List Char) (a b : List Char)
    (ha : ∀ c ∈ a, lowerChar p ≠ lowerChar c)
    (hb : splitFirstCI (p :: ps) b = none) :
    splitFirstCI (p :: ps) (a ++ b) = none := by
  induction a with
  | nil => simpa using hb
  | cons c cs ih =>
    have hph := isPrefixCI_head_false p ps c (cs ++ b) (ha c (List.mem_cons_self c cs))
    have htl := ih (fun d hd => ha d (List.mem_cons_of_mem c hd))
    rw [List.cons_append, splitFirstCI, if_neg (by simp [hph]), htl]

theorem splitFirstCI_append_some (p : Char) (ps : List Char) (a b pre post : List Char)
    (ha : ∀ c ∈ a, lowerChar p ≠ lowerChar c)
    (hb : splitFirstCI (p :: ps) b = some (pre, post)) :
    splitFirstCI (p :: ps) (a ++ b) = some (a ++ pre, post) := by
  induction a with
  | nil => simpa using hb
  | cons c cs ih =>
    have hph := isPrefixCI_head_false p ps c (cs ++ b) (ha c (List.mem_cons_self c cs))
    have htl := ih (fun d hd => ha d (List.mem_cons_of_mem c hd))
    rw [List.cons_append, splitFirstCI, if_neg (by simp [hph]), htl]
    simp

theorem takeWhile_append_all (p : Char → Bool) (a b : List Char) (ha : ∀ c ∈ a, p c = true) :
    List.takeWhile p (a ++ b) = a ++ List.takeWhile p b := by
  induction a with
  | nil => simp
  | cons c cs ih =>
    rw [List.cons_append, List.takeWhile_cons, ha c (List.mem_cons_self c cs)]
    simp only [ih (fun d hd => ha d (List.mem_cons_of_mem c hd))]
    simp

theorem hereTagBlock_script_eval (inner : List Char) :
    hereTagBlock (str "script") (str "<script>" ++ inner ++ str "</script>") =
      (match splitFirstCI ('<' :: '/' :: str "script" ++ ['>'])
          ('>' :: (inner ++ str "</script>")) with
       | none => none
       | some (_, post) => some ([' '], post)) := rfl

theorem splitFirstCI_closing_gt (inner : List Char) :
    splitFirstCI ('<' :: '/' :: str "script" ++ ['>']) ('>' :: (inner ++ str "</script>")) =
      (match splitFirstCI ('<' :: '/' :: str "script" ++ ['>']) (inner ++ str "</script>") with
       | some (pre, post) => some ('>' :: pre, post)
       | none => none) := rfl

theorem stepTagBlock_cons_of_here (tag : List Char) (c : Char) (cs repl post : List Char)
    (h : hereTagBlock tag (c :: cs) = some (repl, post)) :
    stepTagBlock tag (c :: cs) = some ([], repl, post) := by
  rw [stepTagBlock, h]

theorem gRep_of_step_some (step : RepStep) (f : Nat) (s pre repl post : List Char)
    (h : step s = some (pre, repl, post)) :
    gRep step (f + 1) s = pre ++ repl ++ gRep step f post := by
  show gRep step (Nat.succ f) s = _
  rw [gRep, h]

theorem gRep_nil (step : RepStep) (f : Nat) (h : step [] = none) : gRep step f [] = [] := by
  cases f <;> simp [gRep, h]

theorem stepTagBlock_script_match (inner : List Char)
    (ha : ∀ c ∈ inner, isLowerA c = true ∨ c = '\n') :
    stepTagBlock (str "script") (str "<script>" ++ inner ++ str "</script>") =
      some ([], [' '], []) := by
  have hne : ∀ c ∈ inner, lowerChar '<' ≠ lowerChar c := fun c hc => lt_ne_lower_or_nl c (ha c hc)
  have hb : splitFirstCI ('<' :: '/' :: str "script" ++ ['>']) (str "</script>") =
      some ([], []) := by decide
  have hsplit : splitFirstCI ('<' :: '/' :: str "script" ++ ['>']) (inner ++ str "</script>") =
      some (inner, []) := by
    have h2 := splitFirstCI_append_some '<' ('/' :: str "script" ++ ['>']) inner (str "</script>")
      [] [] hne hb
    simpa using h2
  have hhere : hereTagBlock (str "script") (str "<script>" ++ inner ++ str "</script>") =
      some ([' '], []) := by
    rw [hereTagBlock_script_eval, splitFirstCI_closing_gt, hsplit]
  have hcons : str "<script>" ++ inner ++ str "</script>" =
      '<' :: ((str "script>" ++ inner) ++ str "</script>") := by
    simp [str, List.append_assoc]
  rw [hcons] at hhere ⊢
  exact stepTagBlock_cons_of_here _ _ _ _ _ hhere

theorem cleanHtml_script_removed (inner : List Char)
    (ha : ∀ c ∈ inner, isLowerA c = true ∨ c = '\n') :
    cleanHtml (str "<script>" ++ inner ++ str "</script>") = str " " := by
  simp only [cleanHtml]
  rw [gRep_of_step_some _ _ _ _ _ _ (stepTagBlock_script_match inner ha)]
  rw [gRep_nil _ _ rfl]
  decide

theorem splitFirstCI_cons_none (pat : List Char) (c : Char) (cs : List Char)
    (hp : isPrefixCI pat (c :: cs) = false)
    (h : splitFirstCI pat cs = none) : splitFirstCI pat (c :: cs) = none := by
  rw [splitFirstCI, if_neg (by simp [hp]), h]

theorem stepTagBlock_none_of_no_open (tag : List Char) (s : List Char)
    (h : splitFirstCI ('<' :: tag) s = none) : stepTagBlock tag s = none := by
  induction s with
  | nil => rfl
  | cons c cs ih =>
    rw [splitFirstCI] at h
    by_cases hp : isPrefixCI ('<' :: tag) (c :: cs)
    · rw [if_pos hp] at h
      simp at h
    · rw [if_neg hp] at h
      have htl : splitFirstCI ('<' :: tag) cs = none := by
        cases hs : splitFirstCI ('<' :: tag) cs with
        | none => rfl
        | some pr =>
          rw [hs] at h
          simp at h
      have hhere : hereTagBlock tag (c :: cs) = none := by
        unfold hereTagBlock
        rw [if_neg (by simp [hp])]
      rw [stepTagBlock, hhere, ih htl]

theorem lower_ne_nl (c : Char) (h : isLowerA c = true) : (c != '\n') = true := by
  obtain ⟨h1, _⟩ := isLowerA_facts c h
  rw [bne_iff_ne]
  intro he
  rw [he] at h1
  exact absurd h1 (by decide)

theorem drop_append_add (a b : List Char) (n : Nat) :
    (a ++ b).drop (a.length + n) = b.drop n := by
  induction a with
  | nil => simp
  | cons c cs ih =>
    rw [List.cons_append, List.length_cons,
      show cs.length + 1 + n = (cs.length + n) + 1 from by omega,
      List.drop_succ_cons, ih]

theorem hereElemLine_nav_eval (inner : List Char) :
    hereElemLine (str "nav") (str "<nav>" ++ inner ++ str "</nav>") =
      (match splitFirstCI ('<' :: '/' :: str "nav" ++ ['>'])
          (List.takeWhile (fun c => c != '\n') (inner ++ str "</nav>")) with
       | none => none
       | some (between, _) =>
         some ([' '], (inner ++ str "</nav>").drop (between.length + 6))) := rfl

theorem stepElemLine_cons_of_here (tag : List Char) (c : Char) (cs repl post : List Char)
    (h : hereElemLine tag (c :: cs) = some (repl, post)) :
    stepElemLine tag (c :: cs) = some ([], repl, post) := by
  rw [stepElemLine, h]

theorem stepElemLine_nav_match (inner : List Char) (ha : ∀ c ∈ inner, isLowerA c = true) :
    stepElemLine (str "nav") (str "<nav>" ++ inner ++ str "</nav>") =
      some ([], [' '], []) := by
  have hne : ∀ c ∈ inner, lowerChar '<' ≠ lowerChar c := fun c hc => lt_ne_lower c (ha c hc)
  have htw : List.takeWhile (fun c => c != '\n') (inner ++ str "</nav>") =
      inner ++ str "</nav>" := by
    rw [takeWhile_append_all _ _ _ (fun c hc => lower_ne_nl c (ha c hc)),
      show List.takeWhile (fun c => c != '\n') (str "</nav>") = str "</nav>" from by decide]
  have hb : splitFirstCI ('<' :: '/' :: str "nav" ++ ['>']) (str "</nav>") =
      some ([], []) := by decide
  have hsplit : splitFirstCI ('<' :: '/' :: str "nav" ++ ['>']) (inner ++ str "</nav>") =
      some (inner, []) := by
    have h2 := splitFirstCI_append_some '<' ('/' :: str "nav" ++ ['>']) inner (str "</nav>")
      [] [] hne hb
    simpa using h2
  have hdrop : (inner ++ str "</nav>").drop (inner.length + 6) = [] := by
    rw [drop_append_add]
    decide
  have hhere : hereElemLine (str "nav") (str "<nav>" ++ inner ++ str "</nav>") =
      some ([' '], []) := by
    rw [hereElemLine_nav_eval, htw, hsplit]
    simp [hdrop]
  have hcons : str "<nav>" ++ inner ++ str "</nav>" =
      '<' :: ((str "nav>" ++ inner) ++ str "</nav>") := by
    simp [str, List.append_assoc]
  rw [hcons] at hhere ⊢
  exact stepElemLine_cons_of_here _ _ _ _ _ hhere

theorem cleanHtml_nav_removed (inner : List Char) (ha : ∀ c ∈ inner, isLowerA c = true) :
    cleanHtml (str "<nav>" ++ inner ++ str "</nav>") = str " " := by
  have hne : ∀ c ∈ inner, lowerChar '<' ≠ lowerChar c := fun c hc => lt_ne_lower c (ha c hc)
  have hch : str "<nav>" ++ inner ++ str "</nav>" =
      '<' :: 'n' :: 'a' :: 'v' :: '>' :: (inner ++ str "</nav>") := by
    simp [str, List.append_assoc]
  have hsc : splitFirstCI ('<' :: str "script") (str "<nav>" ++ inner ++ str "</nav>") = none := by
    rw [hch]
    apply splitFirstCI_cons_none _ _ _ (by rfl)
    apply splitFirstCI_cons_none _ _ _ (by rfl)
    apply splitFirstCI_cons_none _ _ _ (by rfl)
    apply splitFirstCI_cons_none _ _ _ (by rfl)
    apply splitFirstCI_cons_none _ _ _ (by rfl)
    exact splitFirstCI_append_none '<' (str "script") inner (str "</nav>") hne (by decide)
  have hst : splitFirstCI ('<' :: str "style") (str "<nav>" ++ inner ++ str "</nav>") = none := by
    rw [hch]
    apply splitFirstCI_cons_none _ _ _ (by rfl)
    apply splitFirstCI_cons_none _ _ _ (by rfl)
    apply splitFirstCI_cons_none _ _ _ (by rfl)
    apply splitFirstCI_cons_none _ _ _ (by rfl)
    apply splitFirstCI_cons_none _ _ _ (by rfl)
    exact splitFirstCI_append_none '<' (str "style") inner (str "</nav>") hne (by decide)
  simp only [cleanHtml]
  rw [gRep_step_none _ _ _ (stepTagBlock_none_of_no_open (str "script") _ hsc)]
  rw [gRep_step_none _ _ _ (stepTagBlock_none_of_no_open (str "style") _ hst)]
  rw [gRep_of_step_some _ _ _ _ _ _ (stepElemLine_nav_match inner ha)]
  rw [gRep_nil _ _ rfl]
  decide

/-- C5 (counterexample): the sanitizer does not remove a `nav` element whose
content spans a newline: the `nav`/`footer`/`header` patterns use `.` without
the `s` flag, so `<nav>a\nb</nav>` survives (only its whitespace collapses),
contradicting the claim that every such element is removed across newlines. -/
theorem multiline_nav_counterexample :
    cleanHtml (str "<nav>a\nb</nav>") = str "<nav>a b</nav>" ∧
    containsCI (str "<nav") (cleanHtml (str "<nav>a\nb</nav>")) = true :=
  ⟨by decide, by decide⟩

/-- C5 (amended): `script`/`style` elements are removed together with their
whole span even across newlines (their pattern matches newlines via `[^<]`),
while `nav`/`footer`/`header` elements are removed only when no newline
separates the opening tag from the closing tag; a multi-line `nav` block
stays in place with its whitespace collapsed. -/
theorem sanitizer_removal_amended :
    (∀ inner : List Char, (∀ c ∈ inner, isLowerA c = true ∨ c = '\n') →
      cleanHtml (str "<script>" ++ inner ++ str "</script>") = str " ") ∧
    (∀ inner : List Char, (∀ c ∈ inner, isLowerA c = true) →
      cleanHtml (str "<nav>" ++ inner ++ str "</nav>") = str " ") ∧
    cleanHtml (str "<nav>a\nb</nav>") = str "<nav>a b</nav>" :=
  ⟨cleanHtml_script_removed, cleanHtml_nav_removed, by decide⟩

/-- Witness for C5: the amended removal statements applied at concrete
contents, including a script body that spans a newline. -/
theorem sanitizer_removal_witness :
    cleanHtml (str "<script>" ++ str "a\nb" ++ str "</script>") = str " " ∧
    cleanHtml (str "<nav>" ++ str "menu" ++ str "</nav>") = str " " :=
  ⟨sanitizer_removal_amended.1 (str "a\nb") (by decide),
   sanitizer_removal_amended.2.1 (str "menu") (by decide)⟩
